import Mathlib

/-!
Shallow embedding of the gradescope-utils autograder core: the decorator
machinery of `src/gradescope_utils/autograder_utils/decorators.py`, the
time-locking runner of `json_test_runner_with_locks.py`, and the submission
rate limiter of `rate_limit.py`.

A Python test function carries a mutable attribute bag (`__weight__`,
`__score__`, ...).  We model the bag as a record of `Option` fields
(`Dict`), `functools.update_wrapper`'s `__dict__.update` as a per-field
right-biased merge, and each stacked decorator wrapper as a `Layer` holding
its own bag.  Numbers are modelled as `ℚ`, timestamps as `ℤ` (seconds).
-/

namespace GradescopeUtils

/-- Right-biased choice: `ov d s` is `s` when present, else `d`.  This is the
per-key effect of Python's `dict.update` (the update source wins). -/
def ov {α : Type} (d s : Option α) : Option α :=
  match s with
  | some v => some v
  | none => d

/-- The attribute bag of a test function / wrapper.  Field names follow the
dunder attributes set in `decorators.py` (`__weight__`, `__visibility__`,
`__hide_errors__`, `__leaderboard_column__`, `__leaderboard_sort_order__`,
`__leaderboard_value__`, `__score__`, `__output_format__`,
`__custom_output_mode__`, `__custom_output__`, `__gs_available_from__`,
`__gs_available_from_reason__`). -/
@[ext]
structure Dict where
  weight : Option ℚ
  visibility : Option String
  hide_errors : Option String
  leaderboard_column : Option String
  leaderboard_sort_order : Option String
  leaderboard_value : Option ℚ
  score : Option ℚ
  output_format : Option String
  custom_output_mode : Option String
  custom_output : Option String
  gs_available_from : Option ℤ
  gs_available_from_reason : Option String
deriving Repr, DecidableEq

/-- A bare, undecorated test function has none of the attributes. -/
def Dict.empty : Dict :=
  ⟨none, none, none, none, none, none, none, none, none, none, none, none⟩

/-- `functools.update_wrapper(wrapper, func)` ends with
`wrapper.__dict__.update(func.__dict__)`: every attribute present on the
update source `s` overwrites the target `d`. -/
def Dict.update (d s : Dict) : Dict :=
  ⟨ov d.weight s.weight,
   ov d.visibility s.visibility,
   ov d.hide_errors s.hide_errors,
   ov d.leaderboard_column s.leaderboard_column,
   ov d.leaderboard_sort_order s.leaderboard_sort_order,
   ov d.leaderboard_value s.leaderboard_value,
   ov d.score s.score,
   ov d.output_format s.output_format,
   ov d.custom_output_mode s.custom_output_mode,
   ov d.custom_output s.custom_output,
   ov d.gs_available_from s.gs_available_from,
   ov d.gs_available_from_reason s.gs_available_from_reason⟩

/-- The kind of a stacked wrapper function created by a decorator `__call__`.
`leaderboard` wrappers inject `set_leaderboard_value`, `partial_credit`
wrappers inject `set_score`, `custom_output` wrappers inject
`set_custom_output` when their mode is replace/append, and `timeout`
wrappers arm a `signal.alarm` (seconds, handler message). -/
inductive LayerKind where
  | leaderboard : LayerKind
  | partial_credit : LayerKind
  | timeout : ℕ → String → LayerKind
  | custom_output : String → LayerKind
deriving Repr, DecidableEq

/-- One wrapper function: its kind plus its own attribute bag (`@wraps(func)`
initialises the bag to a copy of the wrapped function's bag). -/
structure Layer where
  kind : LayerKind
  dict : Dict
deriving Repr, DecidableEq

/-- A decorated test function: the innermost plain function's bag plus the
stack of wrappers, innermost first. -/
structure FuncObj where
  base : Dict
  layers : List Layer
deriving Repr, DecidableEq

/-- The attribute bag of the outermost object (the top wrapper, or the plain
function if no wrapper was stacked): this is what a decorator's `__call__`
mutates when it sets static attributes on its argument `func`. -/
def FuncObj.topDict (f : FuncObj) : Dict :=
  match f.layers.getLast? with
  | some l => l.dict
  | none => f.base

/-- Mutate the outermost object's attribute bag (e.g. `func.__weight__ = w`). -/
def FuncObj.mapTop (f : FuncObj) (g : Dict → Dict) : FuncObj :=
  match f.layers.getLast? with
  | some l => ⟨f.base, f.layers.dropLast ++ [⟨l.kind, g l.dict⟩]⟩
  | none => ⟨g f.base, f.layers⟩

/-- Push a new wrapper whose bag starts as a copy of the current outermost
bag (the `@wraps(func)` on every wrapper). -/
def FuncObj.pushLayer (f : FuncObj) (k : LayerKind) : FuncObj :=
  ⟨f.base, f.layers ++ [⟨k, f.topDict⟩]⟩

/-- The decorators of `decorators.py` that the claims concern, with their
constructor arguments.  `timeout` carries the optional `error_message`;
`custom_output` carries format and mode (already validated, see
`custom_output_init`); `available_from` carries the parsed UTC instant. -/
inductive Decor where
  | weight : ℚ → Decor
  | visibility : String → Decor
  | hide_errors : String → Decor
  | leaderboard : String → String → Decor
  | partial_credit : ℚ → Decor
  | timeout : ℕ → Option String → Decor
  | custom_output : String → String → Decor
  | available_from : ℤ → Option String → Decor
deriving Repr, DecidableEq

/-- The default timeout message `"test timed out after {seconds}s."`
computed in `timeout.__init__` when `error_message is None`. -/
def timeoutDefaultMessage (seconds : ℕ) : String :=
  "test timed out after " ++ toString seconds ++ "s."

/-- Apply one decorator's `__call__` to a decorated function: set the static
attributes on the argument object, and push a wrapper layer when the
decorator defines one. -/
def applyDecor (f : FuncObj) : Decor → FuncObj
  | .weight v => f.mapTop (fun d => { d with weight := some v })
  | .visibility v => f.mapTop (fun d => { d with visibility := some v })
  | .hide_errors msg => f.mapTop (fun d => { d with hide_errors := some msg })
  | .leaderboard column sort_order =>
      (f.mapTop (fun d => { d with leaderboard_column := some column,
                                   leaderboard_sort_order := some sort_order })).pushLayer
        .leaderboard
  | .partial_credit w =>
      (f.mapTop (fun d => { d with weight := some w })).pushLayer .partial_credit
  | .timeout seconds error_message =>
      f.pushLayer (.timeout seconds
        (match error_message with
         | some m => m
         | none => timeoutDefaultMessage seconds))
  | .custom_output format mode =>
      (f.mapTop (fun d => { d with output_format := some format,
                                   custom_output_mode := some mode })).pushLayer
        (.custom_output mode)
  | .available_from when_ reason =>
      f.mapTop (fun d => { d with gs_available_from := some when_,
                                  gs_available_from_reason := reason })

/-- Decorate a plain test function: decorators applied left to right, so the
first list element is the innermost (applied first). -/
def decorate (decs : List Decor) : FuncObj :=
  decs.foldl applyDecor ⟨Dict.empty, []⟩

/-- The enumerated formats accepted by `custom_output` (`custom_output.FORMATS`). -/
def FORMATS : List String := ["text", "html", "simple_format", "md", "ansi"]

/-- The enumerated modes accepted by `custom_output` (`custom_output.MODES`). -/
def MODES : List String := ["error_only", "replace", "append"]

/-- `custom_output.__init__`: raises `ValueError` when the format or the mode
is outside its enumerated list, else records both. -/
def custom_output_init (format mode : String) : Except String Decor :=
  if format ∈ FORMATS then
    if mode ∈ MODES then .ok (.custom_output format mode)
    else .error "mode must be one of the following: MODES"
  else .error "format must be one of the gradescope-approved formats: FORMATS"

/-- `visibility.__init__` merely stores the value; no validation happens at
decoration time (any string is accepted). -/
def visibility_init (val : String) : Except String Decor :=
  .ok (.visibility val)

/-- One observable step of a test body: calling one of the injected setter
callbacks, or spending wall-clock time (`time.sleep`). -/
inductive Action where
  | set_score : ℚ → Action
  | set_leaderboard_value : ℚ → Action
  | set_custom_output : String → Action
  | sleep : ℕ → Action
deriving Repr, DecidableEq

/-- How the test body finishes when nothing interrupts it: normal return, an
assertion failure, or an unexpected exception. -/
inductive BodyEnd where
  | ret : BodyEnd
  | assert_fail : String → BodyEnd
  | raise_error : String → BodyEnd
deriving Repr, DecidableEq

/-- A test body: a sequence of observable steps followed by how it ends. -/
structure Body where
  actions : List Action
  ending : BodyEnd
deriving Repr, DecidableEq

/-- The execution outcome of one wrapped test call: normal pass, assertion
failure, unexpected error, or the `TestTimeout` exception raised by the
timeout guard's `SIGALRM` handler (carrying the handler's message). -/
inductive Outcome where
  | passed : Outcome
  | failed : String → Outcome
  | error : String → Outcome
  | timed_out : String → Outcome
deriving Repr, DecidableEq

/-- Whether a wrapper layer injects `set_score` into the kwargs
(`partial_credit.__call__` does). -/
def providesScore : LayerKind → Bool
  | .partial_credit => true
  | _ => false

/-- Whether a wrapper layer injects `set_leaderboard_value` into the kwargs
(`leaderboard.__call__` does). -/
def providesLeaderboard : LayerKind → Bool
  | .leaderboard => true
  | _ => false

/-- Whether a wrapper layer injects `set_custom_output` into the kwargs:
`custom_output.__call__` does so only when the mode is replace or append. -/
def providesCustom : LayerKind → Bool
  | .custom_output mode => mode = "replace" || mode = "append"
  | _ => false

/-- Modify the dict of the first (innermost) layer whose kind satisfies `p`;
`none` when no layer does.  Since kwargs are rebound while descending the
wrapper stack, the innermost injector of a given setter name is the one the
body ends up calling, and its setter writes to that wrapper's own bag. -/
def modFirst (p : LayerKind → Bool) (g : Dict → Dict) : List Layer → Option (List Layer)
  | [] => none
  | l :: ls =>
      if p l.kind then some (⟨l.kind, g l.dict⟩ :: ls)
      else (modFirst p g ls).map (fun ls2 => l :: ls2)

/-- The mutable state while the body runs: the wrappers' bags and the single
process-wide pending alarm (remaining seconds, armed handler's message). -/
structure ExecState where
  layers : List Layer
  alarm : Option (ℕ × String)
deriving Repr, DecidableEq

/-- The result of one body step: continue, or abort with the exception that
propagates (a `TestTimeout`, or the `TypeError` from calling a setter that
was never injected — the harness's `set_score=None` default). -/
inductive StepRes where
  | ok : ExecState → StepRes
  | aborted : ExecState → Outcome → StepRes
deriving Repr, DecidableEq

/-- The `TypeError` message Python gives when the body calls a setter keyword
argument that kept its `None` default. -/
def typeErrorMessage : String := "TypeError: NoneType object is not callable"

/-- Execute one body step against the wrapper stack: each setter writes the
corresponding run-scoped attribute on its own wrapper's bag; `sleep` lets the
pending alarm fire (raising `TestTimeout` with the armed message) when the
deadline elapses within the slept time. -/
def execStep (st : ExecState) : Action → StepRes
  | .set_score v =>
      match modFirst providesScore (fun d => { d with score := some v }) st.layers with
      | some ls => .ok ⟨ls, st.alarm⟩
      | none => .aborted st (.error typeErrorMessage)
  | .set_leaderboard_value v =>
      match modFirst providesLeaderboard
          (fun d => { d with leaderboard_value := some v }) st.layers with
      | some ls => .ok ⟨ls, st.alarm⟩
      | none => .aborted st (.error typeErrorMessage)
  | .set_custom_output s =>
      match modFirst providesCustom (fun d => { d with custom_output := some s }) st.layers with
      | some ls => .ok ⟨ls, st.alarm⟩
      | none => .aborted st (.error typeErrorMessage)
  | .sleep m =>
      match st.alarm with
      | some (a, msg) =>
          if a ≤ m then .aborted ⟨st.layers, none⟩ (.timed_out msg)
          else .ok ⟨st.layers, some (a - m, msg)⟩
      | none => .ok st

/-- Run the body's steps in order, stopping at the first abort. -/
def execActions (st : ExecState) : List Action → ExecState × Option Outcome
  | [] => (st, none)
  | a :: as =>
      match execStep st a with
      | .ok st2 => execActions st2 as
      | .aborted st2 o => (st2, some o)

/-- Arm the alarms while descending the wrapper stack (outermost wrapper's
`with self:` entered first, so an inner timeout's `signal.alarm(seconds)`
replaces an outer one; `signal.alarm(0)` cancels). -/
def armAlarms (layers : List Layer) : Option (ℕ × String) :=
  layers.reverse.foldl
    (fun al l =>
      match l.kind with
      | .timeout n msg => if n = 0 then none else some (n, msg)
      | _ => al)
    none

/-- The post-call refresh on every exit path: unwinding innermost first, each
wrapper's `_update_wrapper_after_call.__exit__` runs
`update_wrapper(wrapper, func)`, merging the inner object's bag over the
wrapper's own.  Returns the outermost object's final bag. -/
def unwindFrom (below : Dict) : List Layer → Dict
  | [] => below
  | l :: ls => unwindFrom (Dict.update l.dict below) ls

/-- Clear the alarm while unwinding: every timeout wrapper's `__exit__` runs
`signal.alarm(0)` whether the call returned, failed early or timed out. -/
def clearAlarms (al : Option (ℕ × String)) : List Layer → Option (ℕ × String)
  | [] => al
  | l :: ls =>
      clearAlarms
        (match l.kind with
         | .timeout _ _ => none
         | _ => al) ls

/-- What one invocation of the decorated test leaves behind: the outermost
object's attribute bag (the one the result builder reads), the execution
outcome, and the process-wide alarm state after all wrappers exited. -/
structure RunResult where
  dict : Dict
  outcome : Outcome
  alarm : Option (ℕ × String)
deriving Repr, DecidableEq

/-- The ending of the body, when no abort pre-empted it. -/
def endingOutcome : BodyEnd → Outcome
  | .ret => .passed
  | .assert_fail m => .failed m
  | .raise_error m => .error m

/-- Invoke a decorated test function on a body: arm the timeout alarms while
descending, run the body's steps, then unwind every wrapper (post-call
attribute refresh and alarm clearing run on every exit path, exceptions
included). -/
def callFunc (f : FuncObj) (b : Body) : RunResult :=
  let st0 : ExecState := ⟨f.layers, armAlarms f.layers⟩
  let r := execActions st0 b.actions
  let outcome :=
    match r.2 with
    | some o => o
    | none => endingOutcome b.ending
  ⟨unwindFrom f.base r.1.layers, outcome, clearAlarms r.1.alarm r.1.layers⟩

/-- The per-test entry of the report (`results.json` `tests` element). -/
structure ResultRecord where
  name : String
  status : String
  score : ℚ
  max_score : ℚ
  output : String
  output_format : Option String
  visibility : String
  leaderboard_column : Option String
  leaderboard_sort_order : Option String
  leaderboard_value : Option ℚ
deriving Repr, DecidableEq

/-- Modelled from the spec: the Result Aggregator of the base JSON test
runner (`json_test_runner.py`, not among the repository files given; only
its callers and tests are).  Per spec section 4.4: status is passed when no
failure/error occurred and no run-scoped score below full credit was
reported, failed on an assertion failure or a reported score below the
weight, error on an unexpected exception; a timeout is recorded as failed
(section 7).  max_score is the weight attribute, default 1.0.  score is
max_score when passed with no reported score, else the reported score when
one exists, else 0.  The output is the captured failure text, replaced
wholesale by the hide-errors message when that attribute is present, then
reshaped by the custom-output mode: replace substitutes the reported value
whenever it was set, append concatenates default text, a blank line and the
value, error_only leaves the default. -/
def mkResultRecord (name : String) (d : Dict) (o : Outcome) : ResultRecord :=
  let max_score : ℚ :=
    match d.weight with
    | some w => w
    | none => 1
  let status : String :=
    match o with
    | .passed =>
        match d.score with
        | some s => if s < max_score then "failed" else "passed"
        | none => "passed"
    | .failed _ => "failed"
    | .timed_out _ => "failed"
    | .error _ => "error"
  let score : ℚ :=
    match d.score with
    | some s => s
    | none => if status = "passed" then max_score else 0
  let defaultText : String :=
    match o with
    | .passed => ""
    | .failed m => "Test Failed: " ++ m ++ "\n"
    | .error m => "Test Failed: " ++ m ++ "\n"
    | .timed_out m => "Test Failed: " ++ m ++ "\n"
  let hiddenText : String :=
    match d.hide_errors with
    | some msg => if status = "passed" then defaultText else msg
    | none => defaultText
  let output : String :=
    match d.custom_output_mode with
    | some "replace" =>
        match d.custom_output with
        | some c => c
        | none => hiddenText
    | some "append" =>
        match d.custom_output with
        | some c => hiddenText ++ "\n\n" ++ c
        | none => hiddenText
    | _ => hiddenText
  let visibility : String :=
    match d.visibility with
    | some v => v
    | none => "visible"
  ⟨name, status, score, max_score, output, d.output_format, visibility,
   d.leaderboard_column, d.leaderboard_sort_order, d.leaderboard_value⟩

/-- Decorate a fresh test function with `decs` (first element innermost, as
if written closest to the `def`), invoke it on `body`, and build its result
record from the outermost wrapper's final attribute bag. -/
def runTest (name : String) (decs : List Decor) (body : Body) : ResultRecord :=
  let r := callFunc (decorate decs) body
  mkResultRecord name r.dict r.outcome

/-! Proof infrastructure: a run factors into the static attribute bags fixed
at decoration time and the run-scoped writes the body performs, because each
setter writes a run-scoped field of its own wrapper's bag and no decorator
sets a run-scoped field statically. -/

/-- Which setters the wrapper stack injects into the body's kwargs. -/
structure Provs where
  score : Bool
  leaderboard : Bool
  custom : Bool
deriving Repr, DecidableEq

/-- The setters provided by a wrapper stack. -/
def provsOf (layers : List Layer) : Provs :=
  ⟨layers.any (fun l => providesScore l.kind),
   layers.any (fun l => providesLeaderboard l.kind),
   layers.any (fun l => providesCustom l.kind)⟩

/-- The run-scoped values the body has reported so far. -/
structure Writes where
  score : Option ℚ
  leaderboard_value : Option ℚ
  custom_output : Option String
deriving Repr, DecidableEq

/-- No value reported yet. -/
def Writes.empty : Writes := ⟨none, none, none⟩

/-- The run-scoped writes as an attribute bag. -/
def writesDict (w : Writes) : Dict :=
  ⟨none, none, none, none, none, w.leaderboard_value, w.score, none, none,
   w.custom_output, none, none⟩

/-- Abstract execution of the body against the available setters and the
pending alarm: tracks only the reported values, the remaining alarm, and the
first abort. -/
def absExec (pv : Provs) : Writes → Option (ℕ × String) → List Action →
    Writes × Option (ℕ × String) × Option Outcome
  | w, al, [] => (w, al, none)
  | w, al, .set_score v :: as =>
      if pv.score then absExec pv { w with score := some v } al as
      else (w, al, some (.error typeErrorMessage))
  | w, al, .set_leaderboard_value v :: as =>
      if pv.leaderboard then absExec pv { w with leaderboard_value := some v } al as
      else (w, al, some (.error typeErrorMessage))
  | w, al, .set_custom_output s :: as =>
      if pv.custom then absExec pv { w with custom_output := some s } al as
      else (w, al, some (.error typeErrorMessage))
  | w, al, .sleep m :: as =>
      match al with
      | some (a, msg) =>
          if a ≤ m then (w, none, some (.timed_out msg))
          else absExec pv w (some (a - m, msg)) as
      | none => absExec pv w none as

/-- `modFirst` when it finds a layer, keeping the rest. -/
def setW (p : LayerKind → Bool) (g : Dict → Dict) (L : List Layer) : List Layer :=
  match modFirst p g L with
  | some L2 => L2
  | none => L

/-- Write a reported score into the `partial_credit` wrapper's bag, when
reported. -/
def setScW (o : Option ℚ) (L : List Layer) : List Layer :=
  match o with
  | some v => setW providesScore (fun d => { d with score := some v }) L
  | none => L

/-- Write a reported leaderboard value into the `leaderboard` wrapper's bag,
when reported. -/
def setLbW (o : Option ℚ) (L : List Layer) : List Layer :=
  match o with
  | some v => setW providesLeaderboard (fun d => { d with leaderboard_value := some v }) L
  | none => L

/-- Write a reported custom output into the `custom_output` wrapper's bag,
when reported. -/
def setCoW (o : Option String) (L : List Layer) : List Layer :=
  match o with
  | some s => setW providesCustom (fun d => { d with custom_output := some s }) L
  | none => L

/-- Apply all reported run-scoped writes to the wrapper stack. -/
def applyW (L : List Layer) (w : Writes) : List Layer :=
  setCoW w.custom_output (setLbW w.leaderboard_value (setScW w.score L))

/-- An attribute bag with no run-scoped value (as every bag is at decoration
time: no decorator sets `__score__`, `__leaderboard_value__` or
`__custom_output__` statically). -/
def CleanD (d : Dict) : Prop :=
  d.score = none ∧ d.leaderboard_value = none ∧ d.custom_output = none

/-- All wrapper bags clean. -/
def CleanL (L : List Layer) : Prop := ∀ l ∈ L, CleanD l.dict

/-- Reported values only exist for injected setters. -/
def wRespects (pv : Provs) (w : Writes) : Prop :=
  (w.score.isSome → pv.score = true) ∧
  (w.leaderboard_value.isSome → pv.leaderboard = true) ∧
  (w.custom_output.isSome → pv.custom = true)

/-- Per-field view of the unwinding merge: fold a column of optional values,
earlier (inner) entries taking priority. -/
def colFold {α : Type} (b : Option α) (xs : List (Option α)) : Option α :=
  xs.foldl (fun acc x => ov x acc) b

/-- Decoration never sets a run-scoped attribute: every bag of a decorated
function is clean before the test runs. -/
def CleanF (f : FuncObj) : Prop := CleanD f.base ∧ CleanL f.layers

/-- The constructor kind of a decorator (ignoring its arguments). -/
def kindTag : Decor → ℕ
  | .weight _ => 0
  | .visibility _ => 1
  | .hide_errors _ => 2
  | .leaderboard _ _ => 3
  | .partial_credit _ => 4
  | .timeout _ _ => 5
  | .custom_output _ _ => 6
  | .available_from _ _ => 7

/-- The decorators named by the commutativity property: weight, timeout,
partial_credit, leaderboard, custom_output. -/
def composable : Decor → Bool
  | .weight _ => true
  | .leaderboard _ _ => true
  | .partial_credit _ => true
  | .timeout _ _ => true
  | .custom_output _ _ => true
  | _ => false

/-- Whether a wrapper layer is a timeout guard. -/
def isTimeout : LayerKind → Bool
  | .timeout _ _ => true
  | _ => false

/-- The enumerated visibility options listed in the `visibility` decorator's
docstring: hidden, after_due_date, after_published, visible. -/
def VISIBILITIES : List String := ["hidden", "after_due_date", "after_published", "visible"]

/-! The time-locking runner of `json_test_runner_with_locks.py`.  The base
`JSONTestRunner` it extends is not among the repository files given, so the
per-test record building and the totals of its report payload are modelled
from the spec (section 4.4). -/

/-- One entry of the report payload's `tests` list.  A placeholder appended
for a locked test carries no status and no output format (the source dict
has only name, score, max_score, output and visibility keys). -/
structure PEntry where
  name : String
  status : Option String
  score : ℚ
  max_score : ℚ
  output : String
  output_format : Option String
  visibility : String
deriving Repr, DecidableEq

/-- The report payload handed to the post-processor: the `tests` list plus
the aggregate score and max_score. -/
structure Payload where
  tests : List PEntry
  score : ℚ
  max_score : ℚ
deriving Repr, DecidableEq

/-- A discovered test case: its display name, the attribute bag of its test
method (the decorators were applied at definition time) and its body. -/
structure LUnit where
  name : String
  method : Dict
  body : Body
deriving Repr, DecidableEq

/-- The result record of one executed unit (its method's bag carries only
static attributes here; wrapper state is not tracked at the runner level). -/
def recordOf (u : LUnit) : ResultRecord :=
  let r := callFunc ⟨u.method, []⟩ u.body
  mkResultRecord u.name r.dict r.outcome

/-- A result record as a payload entry. -/
def entryOf (r : ResultRecord) : PEntry :=
  ⟨r.name, some r.status, r.score, r.max_score, r.output, r.output_format, r.visibility⟩

/-- Modelled from the spec: the base `JSONTestRunner`'s report (section 4.4,
`json_test_runner.py` is not among the repository files given): one record
per executed unit, aggregate score and max_score the sums of the records'
fields. -/
def baseRunPayload (units : List LUnit) : Payload :=
  let tests := units.map (fun u => entryOf (recordOf u))
  ⟨tests, (tests.map (fun t => t.score)).sum, (tests.map (fun t => t.max_score)).sum⟩

/-- `JSONTestRunnerWithLocks._is_locked`: a test is locked when its method
carries `__gs_available_from__` and now is strictly before it.  Returns the
unlock instant alongside. -/
def _is_locked (now : ℤ) (u : LUnit) : Bool × Option ℤ :=
  match u.method.gs_available_from with
  | none => (false, none)
  | some unlock_dt => (decide (now < unlock_dt), some unlock_dt)

/-- The placeholder entry appended for one locked test: zero score, zero
max_score (so it cannot affect totals), a message interpolating the unlock
time (and the declared reason when present), and the method's visibility
defaulting to visible. -/
def placeholderOf (u : LUnit) (unlock_dt : ℤ) : PEntry :=
  let vis :=
    match u.method.visibility with
    | some v => v
    | none => "visible"
  let msg0 := "This test unlocks on " ++ toString unlock_dt ++ "."
  let msg :=
    match u.method.gs_available_from_reason with
    | some reason => msg0 ++ "\nReason: " ++ reason
    | none => msg0
  ⟨u.name, none, 0, 0, msg, none, vis⟩

/-- `JSONTestRunnerWithLocks.run`: split the units into runnable and locked,
run only the runnable ones through the base runner, then post-process the
payload: recompute max_score as the sum of the max_scores of the tests that
actually ran, and, when configured, append one placeholder per locked
unit. -/
def runWithLocks (now : ℤ) (include_locked_in_output : Bool)
    (units : List LUnit) : Payload :=
  let part := units.foldl
    (fun (acc : List (LUnit × ℤ) × List LUnit) t =>
      match _is_locked now t with
      | (true, some unlock_dt) => (acc.1 ++ [(t, unlock_dt)], acc.2)
      | _ => (acc.1, acc.2 ++ [t]))
    ([], [])
  let locked_tests := part.1
  let payload := baseRunPayload part.2
  let total_max_score := (payload.tests.map (fun t => t.max_score)).sum
  let p1 : Payload := ⟨payload.tests, payload.score, total_max_score⟩
  if include_locked_in_output then
    ⟨p1.tests ++ locked_tests.map (fun q => placeholderOf q.1 q.2), p1.score, p1.max_score⟩
  else p1

/-- The locked units with their unlock instants, in discovery order (the
units `JSONTestRunnerWithLocks.run` withholds from the base runner). -/
def lockedOf (now : ℤ) (units : List LUnit) : List (LUnit × ℤ) :=
  units.filterMap (fun u =>
    match u.method.gs_available_from with
    | some unlock_dt => if now < unlock_dt then some (u, unlock_dt) else none
    | none => none)

/-- The units actually handed to the base runner. -/
def runnableOf (now : ℤ) (units : List LUnit) : List LUnit :=
  units.filter (fun u => ! (_is_locked now u).1)

/-! The submission rate limiter of `rate_limit.py`.  Submission timestamps
are modelled as `ℤ` (epoch seconds); the metadata file's parsed
`previous_submissions` list is passed directly. -/

/-- The `extra_data` dict of a results payload: the `rate_limited` flag plus
whatever other keys it holds. -/
structure ExtraData where
  rate_limited : Bool
  other : List (String × String)
deriving Repr, DecidableEq

/-- One entry of a results payload's `tests` list, with the keys
`prepend_rate_limit_warning`'s dummy test case sets. -/
structure RLTestEntry where
  status : String
  name : String
  name_format : String
  output : String
  output_format : String
  visibility : String
deriving Repr, DecidableEq

/-- A previously computed report payload (`results` of a prior submission).
`extra_data` distinguishes absent (`none`), JSON null (`some none`) and a
dict (`some (some e)`). -/
structure Results where
  tests : List RLTestEntry
  score : ℚ
  max_score : ℚ
  extra_data : Option (Option ExtraData)
deriving Repr, DecidableEq

/-- One prior submission: its timestamp and its results payload (absent when
the submission never ran). -/
structure Submission where
  submission_time : ℤ
  results : Option Results
deriving Repr, DecidableEq

/-- `prepend_rate_limit_warning`: prepend the dummy warning test case to the
prior results' tests and overwrite `extra_data` with the rate-limited flag.
Callers guarantee `results` is present (the history is pre-filtered);
an absent payload is treated as empty. -/
def prepend_rate_limit_warning (previous_submission : Submission) (reason : String) : Results :=
  let results :=
    match previous_submission.results with
    | some r => r
    | none => ⟨[], 0, 0, none⟩
  let dummy_test_case : RLTestEntry :=
    ⟨"failed", "Submission Limit Exceeded", "text",
     "WARNING: Rate Limit exceeded. The current submission will not be evaluated. " ++
       "Falling back to earlier submission from " ++
       toString previous_submission.submission_time ++ ".  Reason: " ++ reason,
     "text", "visible"⟩
  ⟨dummy_test_case :: results.tests, results.score, results.max_score,
   some (some ⟨true, []⟩)⟩

/-- `_is_previous_submission_rate_limited`: read the `rate_limited` flag out
of the prior results' `extra_data`, defaulting to false for a missing
results payload, a missing `extra_data` key, or a null value. -/
def _is_previous_submission_rate_limited (previous_submission : Submission) : Bool :=
  match previous_submission.results with
  | none => false
  | some r =>
      match r.extra_data with
      | none => false
      | some none => false
      | some (some extras) => extras.rate_limited

/-- `load_previous_submissions`: drop prior submissions whose results are
missing, then drop those that were themselves rate limited. -/
def load_previous_submissions (previous_submissions : List Submission) : List Submission :=
  let kept := previous_submissions.filter (fun s => s.results.isSome)
  kept.filter (fun s => ! _is_previous_submission_rate_limited s)

/-- Stable insertion of a submission into a list sorted by timestamp:
inserted after every earlier-or-equal entry (Python's `sorted` is stable). -/
def insertByTime (s : Submission) : List Submission → List Submission
  | [] => [s]
  | t :: ts =>
      if t.submission_time ≤ s.submission_time then t :: insertByTime s ts
      else s :: t :: ts

/-- `sorted(submissions, key=submission_datetime)`: ascending, stable. -/
def sortByTime : List Submission → List Submission
  | [] => []
  | s :: ss => insertByTime s (sortByTime ss)

/-- Python list indexing: a negative index counts from the end; out of range
raises `IndexError`. -/
def pyGetAt {α : Type} (l : List α) (i : ℤ) : Except String α :=
  let j := if i < 0 then i + (l.length : ℤ) else i
  if j < 0 then .error "IndexError"
  else
    match l.get? j.toNat with
    | some x => .ok x
    | none => .error "IndexError"

/-- The reason text for the total-submissions cap. -/
def total_reason (cap count : ℕ) : String :=
  "Limit of " ++ toString cap ++
    " maximum total submissions is in effect. You previously submitted " ++
    toString count ++ " times. Please contact the course staff if you believe this is an error."

/-- The reason text for the per-24-hours cap. -/
def per_day_reason (cap count : ℕ) : String :=
  "Limit of " ++ toString cap ++
    " maximum submissions per 24 hours is in effect. In the past 24h, you submitted " ++
    toString count ++ " times. Please contact the course staff if you believe this is an error."

/-- The reason text for the per-hour cap. -/
def per_hour_reason (cap count : ℕ) : String :=
  "Limit of " ++ toString cap ++
    " maximum submissions per hour is in effect. In the past hour, you submitted " ++
    toString count ++ " times. Please contact the course staff if you believe this is an error."

/-- One cap check of `get_earlier_results_if_rate_limited` (the source
repeats this block for the total, per-24h and per-hour caps): when the cap
is configured and the window has reached it, sort the window ascending by
timestamp and fall back to the entry at index cap-1, with the warning
prepended; `.error` is Python's IndexError (reachable only for cap 0 on an
empty window, through index -1). -/
def rate_limit_window_step (cap : Option ℕ) (window : List Submission)
    (reasonOf : ℕ → ℕ → String) : Except String (Option Results) :=
  match cap with
  | some c =>
      if c ≤ window.length then
        let sorted_submissions := sortByTime window
        match pyGetAt sorted_submissions ((c : ℤ) - 1) with
        | .error e => .error e
        | .ok last_valid_result =>
            .ok (some (prepend_rate_limit_warning last_valid_result
              (reasonOf c sorted_submissions.length)))
      else .ok none
  | none => .ok none

/-- `get_earlier_results_if_rate_limited`: with no cap configured, return
nothing; else filter the prior submissions and check the total cap, then
the per-24-hours cap over the last day's window, then the per-hour cap over
the last hour's window; the first cap that is reached or exceeded returns
the fallback results with the warning prepended, and if no cap is hit the
result is nothing. -/
def get_earlier_results_if_rate_limited (max_total max_per_day max_per_hour : Option ℕ)
    (now : ℤ) (previous_submissions : List Submission) :
    Except String (Option Results) :=
  if max_total = none ∧ max_per_day = none ∧ max_per_hour = none then .ok none
  else
    let prev := load_previous_submissions previous_submissions
    match rate_limit_window_step max_total prev total_reason with
    | .error e => .error e
    | .ok (some r) => .ok (some r)
    | .ok none =>
        let last_24_hours_submissions :=
          prev.filter (fun s => now - 86400 < s.submission_time)
        match rate_limit_window_step max_per_day last_24_hours_submissions per_day_reason with
        | .error e => .error e
        | .ok (some r) => .ok (some r)
        | .ok none =>
            let last_hour_submissions :=
              prev.filter (fun s => now - 3600 < s.submission_time)
            rate_limit_window_step max_per_hour last_hour_submissions per_hour_reason

theorem ov_none_right {α : Type} (d : Option α) : ov d none = d := rfl

theorem ov_some_right {α : Type} (d : Option α) (v : α) : ov d (some v) = some v := rfl

theorem modFirst_isSome (p : LayerKind → Bool) (g : Dict → Dict) (L : List Layer) :
    (modFirst p g L).isSome = L.any (fun l => p l.kind) := by
  induction L with
  | nil => rfl
  | cons l ls ih =>
      by_cases h : p l.kind
      · simp [modFirst, h]
      · simp [modFirst, h, ih]

theorem setW_cons_true {p : LayerKind → Bool} {g : Dict → Dict} {l : Layer}
    {ls : List Layer} (h : p l.kind = true) :
    setW p g (l :: ls) = ⟨l.kind, g l.dict⟩ :: ls := by
  simp [setW, modFirst, h]

theorem setW_cons_false {p : LayerKind → Bool} {g : Dict → Dict} {l : Layer}
    {ls : List Layer} (h : p l.kind = false) :
    setW p g (l :: ls) = l :: setW p g ls := by
  simp only [setW, modFirst, h, Bool.false_eq_true, if_false]
  cases hm : modFirst p g ls <;> simp [hm]

theorem modFirst_setW_disjoint {p q : LayerKind → Bool} {g h : Dict → Dict}
    (hdisj : ∀ k, p k = true → q k = false) (L : List Layer) :
    modFirst p g (setW q h L) = Option.map (setW q h) (modFirst p g L) := by
  induction L with
  | nil => rfl
  | cons l ls ih =>
      by_cases hq : q l.kind
      · have hp : p l.kind = false := by
          by_contra hc
          have := hdisj l.kind (by revert hc; cases p l.kind <;> simp)
          rw [this] at hq
          exact Bool.false_ne_true hq
        rw [setW_cons_true hq]
        simp only [modFirst, hp, Bool.false_eq_true, if_false]
        cases hm : modFirst p g ls with
        | none => simp [hm]
        | some ls2 =>
            simp [hm, setW_cons_true hq]
      · have hq' : q l.kind = false := by revert hq; cases q l.kind <;> simp
        rw [setW_cons_false hq']
        by_cases hp : p l.kind
        · simp only [modFirst, hp, if_true, Option.map_some']
          rw [setW_cons_false (l := Layer.mk l.kind (g l.dict)) hq']
        · have hp' : p l.kind = false := by revert hp; cases p l.kind <;> simp
          simp only [modFirst, hp', Bool.false_eq_true, if_false, ih]
          cases hm : modFirst p g ls with
          | none => simp
          | some ls2 => simp [setW_cons_false hq']

theorem modFirst_setW_same {p : LayerKind → Bool} {g h : Dict → Dict} (L : List Layer) :
    modFirst p g (setW p h L) = modFirst p (fun d => g (h d)) L := by
  induction L with
  | nil => rfl
  | cons l ls ih =>
      by_cases hp : p l.kind
      · rw [setW_cons_true hp]
        simp [modFirst, hp]
      · have hp' : p l.kind = false := by revert hp; cases p l.kind <;> simp
        rw [setW_cons_false hp']
        simp only [modFirst, hp', Bool.false_eq_true, if_false, ih]

theorem setW_kindsEq (p : LayerKind → Bool) (g : Dict → Dict) (L : List Layer) :
    (setW p g L).map Layer.kind = L.map Layer.kind := by
  induction L with
  | nil => rfl
  | cons l ls ih =>
      by_cases hp : p l.kind
      · rw [setW_cons_true hp]
        rfl
      · have hp' : p l.kind = false := by revert hp; cases p l.kind <;> simp
        rw [setW_cons_false hp']
        simp [ih]

theorem disj_sc_lb : ∀ k, providesScore k = true → providesLeaderboard k = false := by
  intro k; cases k <;> simp [providesScore, providesLeaderboard]

theorem disj_sc_co : ∀ k, providesScore k = true → providesCustom k = false := by
  intro k; cases k <;> simp [providesScore, providesCustom]

theorem disj_lb_sc : ∀ k, providesLeaderboard k = true → providesScore k = false := by
  intro k; cases k <;> simp [providesScore, providesLeaderboard]

theorem disj_lb_co : ∀ k, providesLeaderboard k = true → providesCustom k = false := by
  intro k; cases k <;> simp [providesCustom, providesLeaderboard]

theorem disj_co_sc : ∀ k, providesCustom k = true → providesScore k = false := by
  intro k; cases k <;> simp [providesScore, providesCustom]

theorem disj_co_lb : ∀ k, providesCustom k = true → providesLeaderboard k = false := by
  intro k; cases k <;> simp [providesLeaderboard, providesCustom]

theorem modFirst_setScW {p : LayerKind → Bool} {g : Dict → Dict}
    (hdisj : ∀ k, p k = true → providesScore k = false) (o : Option ℚ) (L : List Layer) :
    modFirst p g (setScW o L) = Option.map (setScW o) (modFirst p g L) := by
  cases o with
  | none => cases hm : modFirst p g L <;> simp [setScW, hm]
  | some v => exact modFirst_setW_disjoint hdisj L

theorem modFirst_setLbW {p : LayerKind → Bool} {g : Dict → Dict}
    (hdisj : ∀ k, p k = true → providesLeaderboard k = false) (o : Option ℚ) (L : List Layer) :
    modFirst p g (setLbW o L) = Option.map (setLbW o) (modFirst p g L) := by
  cases o with
  | none => cases hm : modFirst p g L <;> simp [setLbW, hm]
  | some v => exact modFirst_setW_disjoint hdisj L

theorem modFirst_setCoW {p : LayerKind → Bool} {g : Dict → Dict}
    (hdisj : ∀ k, p k = true → providesCustom k = false) (o : Option String) (L : List Layer) :
    modFirst p g (setCoW o L) = Option.map (setCoW o) (modFirst p g L) := by
  cases o with
  | none => cases hm : modFirst p g L <;> simp [setCoW, hm]
  | some v => exact modFirst_setW_disjoint hdisj L

theorem setW_of_modFirst {p : LayerKind → Bool} {g : Dict → Dict} {L L2 : List Layer}
    (h : modFirst p g L = some L2) : setW p g L = L2 := by
  simp [setW, h]

theorem modFirst_sc_applyW (L : List Layer) (w : Writes) (v : ℚ) :
    modFirst providesScore (fun d => { d with score := some v }) (applyW L w) =
      if (provsOf L).score then some (applyW L { w with score := some v }) else none := by
  unfold applyW
  rw [modFirst_setCoW disj_sc_co, modFirst_setLbW disj_sc_lb]
  have hsame : modFirst providesScore (fun d => { d with score := some v }) (setScW w.score L) =
      modFirst providesScore (fun d => { d with score := some v }) L := by
    cases hs : w.score with
    | none => simp [setScW]
    | some v0 =>
        simp only [setScW]
        rw [modFirst_setW_same]
  rw [hsame]
  cases hm : modFirst providesScore (fun d => { d with score := some v }) L with
  | none =>
      have hfalse : (provsOf L).score = false := by
        have h1 := modFirst_isSome providesScore (fun d => { d with score := some v }) L
        rw [hm] at h1
        exact h1.symm
      simp [hfalse]
  | some L2 =>
      have htrue : (provsOf L).score = true := by
        have h1 := modFirst_isSome providesScore (fun d => { d with score := some v }) L
        rw [hm] at h1
        exact h1.symm
      have h2 : setScW (some v) L = L2 := by
        simp only [setScW]
        exact setW_of_modFirst hm
      simp [htrue, h2]

theorem modFirst_lb_applyW (L : List Layer) (w : Writes) (v : ℚ) :
    modFirst providesLeaderboard (fun d => { d with leaderboard_value := some v }) (applyW L w) =
      if (provsOf L).leaderboard then some (applyW L { w with leaderboard_value := some v })
      else none := by
  unfold applyW
  rw [modFirst_setCoW disj_lb_co]
  have hsame : modFirst providesLeaderboard (fun d => { d with leaderboard_value := some v })
      (setLbW w.leaderboard_value (setScW w.score L)) =
      modFirst providesLeaderboard (fun d => { d with leaderboard_value := some v })
        (setScW w.score L) := by
    cases hs : w.leaderboard_value with
    | none => simp [setLbW]
    | some v0 =>
        simp only [setLbW]
        rw [modFirst_setW_same]
  rw [hsame, modFirst_setScW disj_lb_sc]
  cases hm : modFirst providesLeaderboard (fun d => { d with leaderboard_value := some v }) L with
  | none =>
      have hfalse : (provsOf L).leaderboard = false := by
        have h1 := modFirst_isSome providesLeaderboard
          (fun d => { d with leaderboard_value := some v }) L
        rw [hm] at h1
        exact h1.symm
      simp [hfalse]
  | some L2 =>
      have htrue : (provsOf L).leaderboard = true := by
        have h1 := modFirst_isSome providesLeaderboard
          (fun d => { d with leaderboard_value := some v }) L
        rw [hm] at h1
        exact h1.symm
      have h2 : setLbW (some v) (setScW w.score L) = setScW w.score L2 := by
        simp only [setLbW]
        apply setW_of_modFirst
        rw [modFirst_setScW disj_lb_sc, hm]
        rfl
      simp [htrue, h2]

theorem modFirst_co_applyW (L : List Layer) (w : Writes) (s : String) :
    modFirst providesCustom (fun d => { d with custom_output := some s }) (applyW L w) =
      if (provsOf L).custom then some (applyW L { w with custom_output := some s })
      else none := by
  unfold applyW
  have hsame : modFirst providesCustom (fun d => { d with custom_output := some s })
      (setCoW w.custom_output (setLbW w.leaderboard_value (setScW w.score L))) =
      modFirst providesCustom (fun d => { d with custom_output := some s })
        (setLbW w.leaderboard_value (setScW w.score L)) := by
    cases hs : w.custom_output with
    | none => simp [setCoW]
    | some s0 =>
        simp only [setCoW]
        rw [modFirst_setW_same]
  rw [hsame, modFirst_setLbW disj_co_lb, modFirst_setScW disj_co_sc]
  cases hm : modFirst providesCustom (fun d => { d with custom_output := some s }) L with
  | none =>
      have hfalse : (provsOf L).custom = false := by
        have h1 := modFirst_isSome providesCustom (fun d => { d with custom_output := some s }) L
        rw [hm] at h1
        exact h1.symm
      simp [hfalse]
  | some L2 =>
      have htrue : (provsOf L).custom = true := by
        have h1 := modFirst_isSome providesCustom (fun d => { d with custom_output := some s }) L
        rw [hm] at h1
        exact h1.symm
      have h2 : setCoW (some s) (setLbW w.leaderboard_value (setScW w.score L)) =
          setLbW w.leaderboard_value (setScW w.score L2) := by
        simp only [setCoW]
        apply setW_of_modFirst
        rw [modFirst_setLbW disj_co_lb, modFirst_setScW disj_co_sc, hm]
        rfl
      simp [htrue, h2]

theorem execActions_applyW (L : List Layer) :
    ∀ (as : List Action) (w : Writes) (al : Option (ℕ × String)),
      execActions ⟨applyW L w, al⟩ as =
        (⟨applyW L (absExec (provsOf L) w al as).1, (absExec (provsOf L) w al as).2.1⟩,
         (absExec (provsOf L) w al as).2.2) := by
  intro as
  induction as with
  | nil => intro w al; rfl
  | cons a as ih =>
      intro w al
      cases a with
      | set_score v =>
          simp only [execActions, execStep, absExec]
          rw [modFirst_sc_applyW]
          by_cases hp : (provsOf L).score
          · simp only [hp, if_true]
            exact ih _ al
          · have hfalse : (provsOf L).score = false := by
              revert hp; cases (provsOf L).score <;> simp
            simp [hfalse]
      | set_leaderboard_value v =>
          simp only [execActions, execStep, absExec]
          rw [modFirst_lb_applyW]
          by_cases hp : (provsOf L).leaderboard
          · simp only [hp, if_true]
            exact ih _ al
          · have hfalse : (provsOf L).leaderboard = false := by
              revert hp; cases (provsOf L).leaderboard <;> simp
            simp [hfalse]
      | set_custom_output s =>
          simp only [execActions, execStep, absExec]
          rw [modFirst_co_applyW]
          by_cases hp : (provsOf L).custom
          · simp only [hp, if_true]
            exact ih _ al
          · have hfalse : (provsOf L).custom = false := by
              revert hp; cases (provsOf L).custom <;> simp
            simp [hfalse]
      | sleep m =>
          cases al with
          | none =>
              simp only [execActions, execStep, absExec]
              exact ih w none
          | some p =>
              cases p with
              | mk a msg =>
                  simp only [execActions, execStep, absExec]
                  by_cases hle : a ≤ m
                  · simp [hle]
                  · simp only [hle, if_false]
                    exact ih w (some (a - m, msg))

theorem colFold_keep {α : Type} (v : α) (xs : List (Option α)) :
    colFold (some v) xs = some v := by
  induction xs with
  | nil => rfl
  | cons x xs ih =>
      have : ov x (some v) = some v := rfl
      simp only [colFold, List.foldl, this]
      exact ih

theorem colFold_none {α : Type} (xs : List (Option α)) (h : ∀ x ∈ xs, x = none) :
    colFold (none : Option α) xs = none := by
  induction xs with
  | nil => rfl
  | cons x xs ih =>
      have hx : x = none := h x (by simp)
      simp only [colFold, List.foldl, hx]
      exact ih (fun y hy => h y (by simp [hy]))

theorem unwindFrom_field {α : Type} (getF : Dict → Option α)
    (hF : ∀ d s, getF (Dict.update d s) = ov (getF d) (getF s)) :
    ∀ (L : List Layer) (below : Dict),
      getF (unwindFrom below L) = colFold (getF below) (L.map (fun l => getF l.dict)) := by
  intro L
  induction L with
  | nil => intro below; rfl
  | cons l ls ih =>
      intro below
      simp only [unwindFrom, List.map]
      rw [ih, hF]
      rfl

theorem setW_col_preserve {α : Type} (getF : Dict → Option α) {p : LayerKind → Bool}
    {g : Dict → Dict} (h : ∀ d, getF (g d) = getF d) (L : List Layer) :
    (setW p g L).map (fun l => getF l.dict) = L.map (fun l => getF l.dict) := by
  induction L with
  | nil => rfl
  | cons l ls ih =>
      by_cases hp : p l.kind
      · rw [setW_cons_true hp]
        simp [h]
      · have hp' : p l.kind = false := by revert hp; cases p l.kind <;> simp
        rw [setW_cons_false hp']
        simp [ih]

theorem setW_col_write {α : Type} (getF : Dict → Option α) {p : LayerKind → Bool}
    {g : Dict → Dict} {v : α} (hg : ∀ d, getF (g d) = some v) (L : List Layer)
    (hclean : ∀ l ∈ L, getF l.dict = none)
    (hprov : L.any (fun l => p l.kind) = true) :
    colFold none ((setW p g L).map (fun l => getF l.dict)) = some v := by
  induction L with
  | nil => simp at hprov
  | cons l ls ih =>
      by_cases hp : p l.kind
      · rw [setW_cons_true hp]
        simp only [List.map, hg]
        have : colFold (none : Option α) (some v :: ls.map (fun l => getF l.dict)) =
            colFold (some v) (ls.map (fun l => getF l.dict)) := rfl
        rw [this, colFold_keep]
      · have hp' : p l.kind = false := by revert hp; cases p l.kind <;> simp
        rw [setW_cons_false hp']
        have hl : getF l.dict = none := hclean l (by simp)
        have hprov2 : ls.any (fun l => p l.kind) = true := by
          simpa [hp'] using hprov
        have : colFold (none : Option α) (getF l.dict :: (setW p g ls).map (fun l => getF l.dict)) =
            colFold (ov (getF l.dict) none) ((setW p g ls).map (fun l => getF l.dict)) := rfl
        simp only [List.map, this, hl]
        exact ih (fun y hy => hclean y (by simp [hy])) hprov2

theorem setScW_col_preserve {α : Type} (getF : Dict → Option α)
    (h : ∀ d (v : ℚ), getF { d with score := some v } = getF d) (o : Option ℚ) (L : List Layer) :
    (setScW o L).map (fun l => getF l.dict) = L.map (fun l => getF l.dict) := by
  cases o with
  | none => rfl
  | some v => exact setW_col_preserve getF (fun d => h d v) L

theorem setLbW_col_preserve {α : Type} (getF : Dict → Option α)
    (h : ∀ d (v : ℚ), getF { d with leaderboard_value := some v } = getF d)
    (o : Option ℚ) (L : List Layer) :
    (setLbW o L).map (fun l => getF l.dict) = L.map (fun l => getF l.dict) := by
  cases o with
  | none => rfl
  | some v => exact setW_col_preserve getF (fun d => h d v) L

theorem setCoW_col_preserve {α : Type} (getF : Dict → Option α)
    (h : ∀ d (s : String), getF { d with custom_output := some s } = getF d)
    (o : Option String) (L : List Layer) :
    (setCoW o L).map (fun l => getF l.dict) = L.map (fun l => getF l.dict) := by
  cases o with
  | none => rfl
  | some s => exact setW_col_preserve getF (fun d => h d s) L

theorem setScW_kindsEq (o : Option ℚ) (L : List Layer) :
    (setScW o L).map Layer.kind = L.map Layer.kind := by
  cases o with
  | none => rfl
  | some v => exact setW_kindsEq _ _ L

theorem setLbW_kindsEq (o : Option ℚ) (L : List Layer) :
    (setLbW o L).map Layer.kind = L.map Layer.kind := by
  cases o with
  | none => rfl
  | some v => exact setW_kindsEq _ _ L

theorem setCoW_kindsEq (o : Option String) (L : List Layer) :
    (setCoW o L).map Layer.kind = L.map Layer.kind := by
  cases o with
  | none => rfl
  | some s => exact setW_kindsEq _ _ L

theorem applyW_kindsEq (L : List Layer) (w : Writes) :
    (applyW L w).map Layer.kind = L.map Layer.kind := by
  unfold applyW
  rw [setCoW_kindsEq, setLbW_kindsEq, setScW_kindsEq]

theorem clearAlarms_congr {L1 L2 : List Layer}
    (h : L1.map Layer.kind = L2.map Layer.kind) :
    ∀ al, clearAlarms al L1 = clearAlarms al L2 := by
  induction L1 generalizing L2 with
  | nil =>
      cases L2 with
      | nil => intro al; rfl
      | cons y ys => simp at h
  | cons x xs ih =>
      cases L2 with
      | nil => simp at h
      | cons y ys =>
          simp only [List.map, List.cons.injEq] at h
          intro al
          simp only [clearAlarms, h.1]
          exact ih h.2 _

theorem any_map_kind (L : List Layer) (p : LayerKind → Bool) :
    L.any (fun l => p l.kind) = (L.map Layer.kind).any p := by
  induction L with
  | nil => rfl
  | cons x xs ih => simp [ih]

theorem any_kind_congr {L1 L2 : List Layer} (h : L1.map Layer.kind = L2.map Layer.kind)
    (p : LayerKind → Bool) :
    L1.any (fun l => p l.kind) = L2.any (fun l => p l.kind) := by
  rw [any_map_kind, any_map_kind, h]

theorem col_all_none {α : Type} (getF : Dict → Option α) {L1 L2 : List Layer}
    (hcol : L1.map (fun l => getF l.dict) = L2.map (fun l => getF l.dict))
    (h : ∀ l ∈ L2, getF l.dict = none) :
    ∀ l ∈ L1, getF l.dict = none := by
  intro l hl
  have hmem : getF l.dict ∈ L1.map (fun l => getF l.dict) := List.mem_map_of_mem _ hl
  rw [hcol] at hmem
  obtain ⟨l2, hl2, he⟩ := List.mem_map.mp hmem
  rw [← he]
  exact h l2 hl2

theorem unwind_applyW_preserve {α : Type} (getF : Dict → Option α)
    (hupd : ∀ d s, getF (Dict.update d s) = ov (getF d) (getF s))
    (h1 : ∀ d (v : ℚ), getF { d with score := some v } = getF d)
    (h2 : ∀ d (v : ℚ), getF { d with leaderboard_value := some v } = getF d)
    (h3 : ∀ d (s : String), getF { d with custom_output := some s } = getF d)
    (base : Dict) (L : List Layer) (w : Writes) :
    getF (unwindFrom base (applyW L w)) = getF (unwindFrom base L) := by
  rw [unwindFrom_field getF hupd, unwindFrom_field getF hupd]
  congr 1
  unfold applyW
  rw [setCoW_col_preserve getF h3, setLbW_col_preserve getF h2, setScW_col_preserve getF h1]

theorem unwind_applyW (base : Dict) (L : List Layer) (w : Writes)
    (hbase : CleanD base) (hL : CleanL L) (hw : wRespects (provsOf L) w) :
    unwindFrom base (applyW L w) = Dict.update (unwindFrom base L) (writesDict w) := by
  have hsc : (unwindFrom base (applyW L w)).score = ov (unwindFrom base L).score w.score := by
    cases hws : w.score with
    | none =>
        rw [ov_none_right]
        rw [unwindFrom_field (fun d => d.score) (fun d s => rfl),
            unwindFrom_field (fun d => d.score) (fun d s => rfl)]
        congr 1
        unfold applyW
        rw [setCoW_col_preserve (fun d => d.score) (fun d s => rfl),
            setLbW_col_preserve (fun d => d.score) (fun d v => rfl), hws]
        rfl
    | some v =>
        rw [ov_some_right]
        rw [unwindFrom_field (fun d => d.score) (fun d s => rfl)]
        have hcol : (applyW L w).map (fun l => l.dict.score) =
            (setScW (some v) L).map (fun l => l.dict.score) := by
          unfold applyW
          rw [setCoW_col_preserve (fun d => d.score) (fun d s => rfl),
              setLbW_col_preserve (fun d => d.score) (fun d v => rfl), hws]
        rw [hcol, hbase.1]
        simp only [setScW]
        refine setW_col_write (fun d => d.score) (fun d => rfl) L
          (fun l hl => (hL l hl).1) ?_
        apply hw.1
        rw [hws]
        rfl
  have hlb : (unwindFrom base (applyW L w)).leaderboard_value =
      ov (unwindFrom base L).leaderboard_value w.leaderboard_value := by
    cases hws : w.leaderboard_value with
    | none =>
        rw [ov_none_right]
        rw [unwindFrom_field (fun d => d.leaderboard_value) (fun d s => rfl),
            unwindFrom_field (fun d => d.leaderboard_value) (fun d s => rfl)]
        congr 1
        unfold applyW
        rw [setCoW_col_preserve (fun d => d.leaderboard_value) (fun d s => rfl), hws]
        simp only [setLbW]
        rw [setScW_col_preserve (fun d => d.leaderboard_value) (fun d v => rfl)]
    | some v =>
        rw [ov_some_right]
        rw [unwindFrom_field (fun d => d.leaderboard_value) (fun d s => rfl)]
        have hcol : (applyW L w).map (fun l => l.dict.leaderboard_value) =
            (setLbW (some v) (setScW w.score L)).map (fun l => l.dict.leaderboard_value) := by
          unfold applyW
          rw [setCoW_col_preserve (fun d => d.leaderboard_value) (fun d s => rfl), hws]
        rw [hcol, hbase.2.1]
        have hkinds : (setScW w.score L).map Layer.kind = L.map Layer.kind :=
          setScW_kindsEq w.score L
        have hcleansc : ∀ l ∈ setScW w.score L, l.dict.leaderboard_value = none := by
          refine col_all_none (fun d => d.leaderboard_value) ?_ (fun l hl => (hL l hl).2.1)
          exact setScW_col_preserve (fun d => d.leaderboard_value) (fun d v => rfl) w.score L
        simp only [setLbW]
        refine setW_col_write (fun d => d.leaderboard_value) (fun d => rfl) (setScW w.score L)
          hcleansc ?_
        rw [any_kind_congr hkinds]
        apply hw.2.1
        rw [hws]
        rfl
  have hco : (unwindFrom base (applyW L w)).custom_output =
      ov (unwindFrom base L).custom_output w.custom_output := by
    cases hws : w.custom_output with
    | none =>
        rw [ov_none_right]
        rw [unwindFrom_field (fun d => d.custom_output) (fun d s => rfl),
            unwindFrom_field (fun d => d.custom_output) (fun d s => rfl)]
        congr 1
        unfold applyW
        rw [hws]
        simp only [setCoW]
        rw [setLbW_col_preserve (fun d => d.custom_output) (fun d v => rfl),
            setScW_col_preserve (fun d => d.custom_output) (fun d v => rfl)]
    | some s =>
        rw [ov_some_right]
        rw [unwindFrom_field (fun d => d.custom_output) (fun d s => rfl)]
        have hcol : (applyW L w).map (fun l => l.dict.custom_output) =
            (setCoW (some s) (setLbW w.leaderboard_value (setScW w.score L))).map
              (fun l => l.dict.custom_output) := by
          unfold applyW
          rw [hws]
        rw [hcol, hbase.2.2]
        have hkinds : (setLbW w.leaderboard_value (setScW w.score L)).map Layer.kind =
            L.map Layer.kind := by
          rw [setLbW_kindsEq, setScW_kindsEq]
        have hcleanin : ∀ l ∈ setLbW w.leaderboard_value (setScW w.score L),
            l.dict.custom_output = none := by
          refine col_all_none (fun d => d.custom_output) ?_ (fun l hl => (hL l hl).2.2)
          rw [setLbW_col_preserve (fun d => d.custom_output) (fun d v => rfl)]
          exact setScW_col_preserve (fun d => d.custom_output) (fun d v => rfl) w.score L
        simp only [setCoW]
        refine setW_col_write (fun d => d.custom_output) (fun d => rfl)
          (setLbW w.leaderboard_value (setScW w.score L)) hcleanin ?_
        rw [any_kind_congr hkinds]
        apply hw.2.2
        rw [hws]
        rfl
  refine Dict.ext ?_ ?_ ?_ ?_ ?_ ?_ ?_ ?_ ?_ ?_ ?_ ?_
  case refine_1 =>
    exact unwind_applyW_preserve (fun d => d.weight) (fun d s => rfl)
      (fun d v => rfl) (fun d v => rfl) (fun d s => rfl) base L w
  case refine_2 =>
    exact unwind_applyW_preserve (fun d => d.visibility) (fun d s => rfl)
      (fun d v => rfl) (fun d v => rfl) (fun d s => rfl) base L w
  case refine_3 =>
    exact unwind_applyW_preserve (fun d => d.hide_errors) (fun d s => rfl)
      (fun d v => rfl) (fun d v => rfl) (fun d s => rfl) base L w
  case refine_4 =>
    exact unwind_applyW_preserve (fun d => d.leaderboard_column) (fun d s => rfl)
      (fun d v => rfl) (fun d v => rfl) (fun d s => rfl) base L w
  case refine_5 =>
    exact unwind_applyW_preserve (fun d => d.leaderboard_sort_order) (fun d s => rfl)
      (fun d v => rfl) (fun d v => rfl) (fun d s => rfl) base L w
  case refine_6 => exact hlb
  case refine_7 => exact hsc
  case refine_8 =>
    exact unwind_applyW_preserve (fun d => d.output_format) (fun d s => rfl)
      (fun d v => rfl) (fun d v => rfl) (fun d s => rfl) base L w
  case refine_9 =>
    exact unwind_applyW_preserve (fun d => d.custom_output_mode) (fun d s => rfl)
      (fun d v => rfl) (fun d v => rfl) (fun d s => rfl) base L w
  case refine_10 => exact hco
  case refine_11 =>
    exact unwind_applyW_preserve (fun d => d.gs_available_from) (fun d s => rfl)
      (fun d v => rfl) (fun d v => rfl) (fun d s => rfl) base L w
  case refine_12 =>
    exact unwind_applyW_preserve (fun d => d.gs_available_from_reason) (fun d s => rfl)
      (fun d v => rfl) (fun d v => rfl) (fun d s => rfl) base L w

theorem absExec_fst_respects (pv : Provs) :
    ∀ (as : List Action) (w : Writes) (al : Option (ℕ × String)),
      wRespects pv w → wRespects pv (absExec pv w al as).1 := by
  intro as
  induction as with
  | nil => intro w al h; exact h
  | cons a as ih =>
      intro w al h
      cases a with
      | set_score v =>
          by_cases hp : pv.score = true
          · simp only [absExec, hp, if_true]
            exact ih _ _ ⟨fun _ => hp, h.2.1, h.2.2⟩
          · simp only [absExec, hp, if_false]
            exact h
      | set_leaderboard_value v =>
          by_cases hp : pv.leaderboard = true
          · simp only [absExec, hp, if_true]
            exact ih _ _ ⟨h.1, fun _ => hp, h.2.2⟩
          · simp only [absExec, hp, if_false]
            exact h
      | set_custom_output s =>
          by_cases hp : pv.custom = true
          · simp only [absExec, hp, if_true]
            exact ih _ _ ⟨h.1, h.2.1, fun _ => hp⟩
          · simp only [absExec, hp, if_false]
            exact h
      | sleep m =>
          cases al with
          | none =>
              simp only [absExec]
              exact ih _ _ h
          | some p =>
              cases p with
              | mk a msg =>
                  simp only [absExec]
                  by_cases hle : a ≤ m
                  · simp only [hle, if_true]
                    exact h
                  · simp only [hle, if_false]
                    exact ih _ _ h

theorem emptyRespects (pv : Provs) : wRespects pv Writes.empty := by
  refine ⟨?_, ?_, ?_⟩ <;> intro h <;> simp [Writes.empty] at h

/-- The factorization of one decorated-test invocation: the final outermost
bag is the decoration-time merge overlaid with the run-scoped writes, the
outcome and remaining alarm come from the abstract execution. -/
theorem callFunc_factors (f : FuncObj) (hbase : CleanD f.base) (hL : CleanL f.layers)
    (b : Body) :
    callFunc f b =
      ⟨Dict.update (unwindFrom f.base f.layers)
         (writesDict (absExec (provsOf f.layers) Writes.empty (armAlarms f.layers)
            b.actions).1),
       (match (absExec (provsOf f.layers) Writes.empty (armAlarms f.layers) b.actions).2.2 with
        | some o => o
        | none => endingOutcome b.ending),
       clearAlarms
         (absExec (provsOf f.layers) Writes.empty (armAlarms f.layers) b.actions).2.1
         f.layers⟩ := by
  have h0 : applyW f.layers Writes.empty = f.layers := rfl
  have hexec := execActions_applyW f.layers b.actions Writes.empty (armAlarms f.layers)
  rw [h0] at hexec
  have hresp : wRespects (provsOf f.layers)
      (absExec (provsOf f.layers) Writes.empty (armAlarms f.layers) b.actions).1 :=
    absExec_fst_respects _ _ _ _ (emptyRespects _)
  simp only [callFunc, hexec]
  refine congrArg₂ (fun d al => RunResult.mk d _ al) ?_ ?_
  · exact unwind_applyW f.base f.layers _ hbase hL hresp
  · exact clearAlarms_congr (applyW_kindsEq f.layers _) _

theorem mem_of_getLast?_eq : ∀ {l : List Layer} {a : Layer}, l.getLast? = some a → a ∈ l := by
  intro l
  induction l with
  | nil => intro a h; simp at h
  | cons x xs ih =>
      intro a h
      cases xs with
      | nil => simp at h; simp [h]
      | cons y ys =>
          rw [List.getLast?_cons_cons] at h
          exact List.mem_cons_of_mem x (ih h)

theorem mapTop_clean {f : FuncObj} {g : Dict → Dict}
    (hg : ∀ d, CleanD d → CleanD (g d)) (hf : CleanF f) : CleanF (f.mapTop g) := by
  unfold FuncObj.mapTop
  cases hl : f.layers.getLast? with
  | none => exact ⟨hg _ hf.1, hf.2⟩
  | some l =>
      refine ⟨hf.1, ?_⟩
      intro x hx
      rcases List.mem_append.mp hx with hx1 | hx2
      · exact hf.2 x (List.dropLast_subset _ hx1)
      · have : x = ⟨l.kind, g l.dict⟩ := by simpa using hx2
        rw [this]
        exact hg _ (hf.2 l (mem_of_getLast?_eq hl))

theorem topDict_clean {f : FuncObj} (hf : CleanF f) : CleanD f.topDict := by
  unfold FuncObj.topDict
  cases hl : f.layers.getLast? with
  | none => exact hf.1
  | some l => exact hf.2 l (mem_of_getLast?_eq hl)

theorem pushLayer_clean {f : FuncObj} {k : LayerKind} (hf : CleanF f) :
    CleanF (f.pushLayer k) := by
  refine ⟨hf.1, ?_⟩
  intro x hx
  rcases List.mem_append.mp hx with hx1 | hx2
  · exact hf.2 x hx1
  · have : x = ⟨k, f.topDict⟩ := by simpa using hx2
    rw [this]
    exact topDict_clean hf

theorem applyDecor_clean {f : FuncObj} (hf : CleanF f) (d : Decor) :
    CleanF (applyDecor f d) := by
  cases d with
  | weight v => exact mapTop_clean (fun d hd => ⟨hd.1, hd.2.1, hd.2.2⟩) hf
  | visibility v => exact mapTop_clean (fun d hd => ⟨hd.1, hd.2.1, hd.2.2⟩) hf
  | hide_errors m => exact mapTop_clean (fun d hd => ⟨hd.1, hd.2.1, hd.2.2⟩) hf
  | leaderboard c s =>
      exact pushLayer_clean (mapTop_clean (fun d hd => ⟨hd.1, hd.2.1, hd.2.2⟩) hf)
  | partial_credit w =>
      exact pushLayer_clean (mapTop_clean (fun d hd => ⟨hd.1, hd.2.1, hd.2.2⟩) hf)
  | timeout n m => exact pushLayer_clean hf
  | custom_output fo mo =>
      exact pushLayer_clean (mapTop_clean (fun d hd => ⟨hd.1, hd.2.1, hd.2.2⟩) hf)
  | available_from w r => exact mapTop_clean (fun d hd => ⟨hd.1, hd.2.1, hd.2.2⟩) hf

theorem foldl_applyDecor_clean (decs : List Decor) :
    ∀ (f0 : FuncObj), CleanF f0 → CleanF (decs.foldl applyDecor f0) := by
  induction decs with
  | nil => intro f0 h0; exact h0
  | cons d ds ih => intro f0 h0; exact ih _ (applyDecor_clean h0 d)

theorem decorate_clean (decs : List Decor) : CleanF (decorate decs) := by
  unfold decorate
  exact foldl_applyDecor_clean decs _ ⟨⟨rfl, rfl, rfl⟩, fun l hl => by simp at hl⟩

/-- Two decoration orders with the same merged statics, the same injected
setters and the same armed alarm produce the same result record on every
body. -/
theorem runTest_congr_pair (name : String) (b : Body) (decs1 decs2 : List Decor)
    (hstat : unwindFrom (decorate decs1).base (decorate decs1).layers =
      unwindFrom (decorate decs2).base (decorate decs2).layers)
    (hprov : provsOf (decorate decs1).layers = provsOf (decorate decs2).layers)
    (halarm : armAlarms (decorate decs1).layers = armAlarms (decorate decs2).layers) :
    runTest name decs1 b = runTest name decs2 b := by
  unfold runTest
  rw [callFunc_factors _ (decorate_clean decs1).1 (decorate_clean decs1).2,
      callFunc_factors _ (decorate_clean decs2).1 (decorate_clean decs2).2,
      hstat, hprov, halarm]

theorem execActions_nil_state : ∀ (as : List Action),
    (execActions ⟨[], none⟩ as).1 = ⟨[], none⟩ := by
  intro as
  induction as with
  | nil => rfl
  | cons a as ih =>
      cases a with
      | set_score v => rfl
      | set_leaderboard_value v => rfl
      | set_custom_output s => rfl
      | sleep m => exact ih

/-- A test function with no wrapper layers keeps its bag unchanged by a run,
and the outcome is independent of the bag. -/
theorem callFunc_no_layers (d : Dict) (b : Body) :
    callFunc ⟨d, []⟩ b = ⟨d, (callFunc ⟨Dict.empty, []⟩ b).outcome, none⟩ := by
  unfold callFunc
  have hr := execActions_nil_state b.actions
  simp only [show armAlarms ([] : List Layer) = none from rfl, hr]
  rfl

theorem mkResultRecord_max_score (name : String) (d : Dict) (o : Outcome) :
    (mkResultRecord name d o).max_score = d.weight.getD 1 := by
  cases hw : d.weight <;> simp [mkResultRecord, hw]

theorem mkResultRecord_score_some (name : String) (d : Dict) (o : Outcome) (v : ℚ)
    (hs : d.score = some v) : (mkResultRecord name d o).score = v := by
  simp [mkResultRecord, hs]

theorem absExec_score_tail (pv : Provs) (hps : pv.score = true) (v : ℚ) :
    ∀ (as : List Action) (w : Writes),
      (∀ a ∈ as, (∃ x, a = Action.set_score x) ∨ (∃ k, a = Action.sleep k)) →
      absExec pv w none (as ++ [Action.set_score v]) =
        (⟨some v, w.leaderboard_value, w.custom_output⟩, none, none) := by
  intro as
  induction as with
  | nil =>
      intro w _
      simp [absExec, hps]
  | cons a as ih =>
      intro w hpre
      rcases hpre a (by simp) with ⟨x, hx⟩ | ⟨k, hk⟩
      · rw [hx]
        simp only [List.cons_append, absExec, hps, if_true]
        exact ih _ (fun a ha => hpre a (by simp [ha]))
      · rw [hk]
        simp only [List.cons_append, absExec]
        exact ih _ (fun a ha => hpre a (by simp [ha]))

theorem foldl_arm_keep (al : Option (ℕ × String)) :
    ∀ (M : List Layer), (∀ l ∈ M, isTimeout l.kind = false) →
      M.foldl
        (fun al l =>
          match l.kind with
          | .timeout n msg => if n = 0 then none else some (n, msg)
          | _ => al) al = al := by
  intro M
  induction M generalizing al with
  | nil => intro _; rfl
  | cons l ls ih =>
      intro h
      have hl : isTimeout l.kind = false := h l (by simp)
      have hstep :
          (match l.kind with
           | .timeout n msg => if n = 0 then none else some (n, msg)
           | _ => al) = al := by
        cases hk : l.kind <;> simp_all [isTimeout]
      simp only [List.foldl, hstep]
      exact ih al (fun x hx => h x (by simp [hx]))

theorem armAlarms_none_of_no_timeout {L : List Layer}
    (h : L.any (fun l => isTimeout l.kind) = false) : armAlarms L = none := by
  unfold armAlarms
  apply foldl_arm_keep
  intro l hl
  have hmem : l ∈ L := List.mem_reverse.mp hl
  rw [List.any_eq_false] at h
  have := h l hmem
  revert this
  cases isTimeout l.kind <;> simp

theorem clearAlarms_none : ∀ (L : List Layer), clearAlarms none L = none := by
  intro L
  induction L with
  | nil => rfl
  | cons l ls ih =>
      have hstep :
          (match l.kind with
           | LayerKind.timeout _ _ => (none : Option (ℕ × String))
           | _ => none) = none := by
        cases l.kind <;> rfl
      simp only [clearAlarms, hstep]
      exact ih

theorem clearAlarms_any_timeout :
    ∀ (L : List Layer) (al : Option (ℕ × String)),
      L.any (fun l => isTimeout l.kind) = true → clearAlarms al L = none := by
  intro L
  induction L with
  | nil => intro al h; simp at h
  | cons l ls ih =>
      intro al h
      cases hk : l.kind with
      | timeout n msg =>
          simp only [clearAlarms, hk]
          exact clearAlarms_none ls
      | leaderboard =>
          simp only [clearAlarms, hk]
          exact ih al (by simpa [List.any_cons, hk, isTimeout] using h)
      | partial_credit =>
          simp only [clearAlarms, hk]
          exact ih al (by simpa [List.any_cons, hk, isTimeout] using h)
      | custom_output m =>
          simp only [clearAlarms, hk]
          exact ih al (by simpa [List.any_cons, hk, isTimeout] using h)

theorem execActions_alarm_none :
    ∀ (as : List Action) (st : ExecState), st.alarm = none →
      (execActions st as).1.alarm = none := by
  intro as
  induction as with
  | nil => intro st h; exact h
  | cons a as ih =>
      intro st h
      cases a with
      | set_score v =>
          simp only [execActions, execStep]
          cases hm : modFirst providesScore (fun d => { d with score := some v }) st.layers with
          | none => exact h
          | some ls => exact ih _ h
      | set_leaderboard_value v =>
          simp only [execActions, execStep]
          cases hm : modFirst providesLeaderboard
              (fun d => { d with leaderboard_value := some v }) st.layers with
          | none => exact h
          | some ls => exact ih _ h
      | set_custom_output s =>
          simp only [execActions, execStep]
          cases hm : modFirst providesCustom
              (fun d => { d with custom_output := some s }) st.layers with
          | none => exact h
          | some ls => exact ih _ h
      | sleep m =>
          simp only [execActions, execStep, h]
          exact ih _ h

theorem modFirst_kinds {p : LayerKind → Bool} {g : Dict → Dict} :
    ∀ {L L2 : List Layer}, modFirst p g L = some L2 →
      L2.map Layer.kind = L.map Layer.kind := by
  intro L
  induction L with
  | nil => intro L2 h; simp [modFirst] at h
  | cons l ls ih =>
      intro L2 h
      by_cases hp : p l.kind
      · simp only [modFirst, hp, if_true, Option.some.injEq] at h
        rw [← h]
        rfl
      · have hp' : p l.kind = false := by revert hp; cases p l.kind <;> simp
        simp only [modFirst, hp', Bool.false_eq_true, if_false] at h
        cases hm : modFirst p g ls with
        | none => rw [hm] at h; simp at h
        | some ls2 =>
            rw [hm] at h
            simp only [Option.map_some', Option.some.injEq] at h
            rw [← h]
            simp [ih hm]

theorem execActions_kinds :
    ∀ (as : List Action) (st : ExecState),
      (execActions st as).1.layers.map Layer.kind = st.layers.map Layer.kind := by
  intro as
  induction as with
  | nil => intro st; rfl
  | cons a as ih =>
      intro st
      cases a with
      | set_score v =>
          simp only [execActions, execStep]
          cases hm : modFirst providesScore (fun d => { d with score := some v }) st.layers with
          | none => rfl
          | some ls => rw [ih]; exact modFirst_kinds hm
      | set_leaderboard_value v =>
          simp only [execActions, execStep]
          cases hm : modFirst providesLeaderboard
              (fun d => { d with leaderboard_value := some v }) st.layers with
          | none => rfl
          | some ls => rw [ih]; exact modFirst_kinds hm
      | set_custom_output s =>
          simp only [execActions, execStep]
          cases hm : modFirst providesCustom
              (fun d => { d with custom_output := some s }) st.layers with
          | none => rfl
          | some ls => rw [ih]; exact modFirst_kinds hm
      | sleep m =>
          simp only [execActions, execStep]
          cases hal : st.alarm with
          | none => exact ih st
          | some p =>
              cases p with
              | mk a msg =>
                  by_cases hle : a ≤ m
                  · simp [hle]
                  · simp only [hle, if_false]
                    exact ih _

set_option maxHeartbeats 1000000

/-- C1: For every test body and every pair of composable decorators among
weight, timeout, partial_credit, leaderboard and custom_output (distinct
kinds), applying the decorators in either order to that body and running it
yields the identical result record — same name, score, max_score, status,
output and leaderboard value: each stacked stateful wrapper's post-call
attribute refresh preserves the other wrapper's attributes instead of
clobbering them. -/
theorem C1_decorator_pairs_commute (d1 d2 : Decor) (h1 : composable d1 = true)
    (h2 : composable d2 = true) (hk : kindTag d1 ≠ kindTag d2) (name : String)
    (b : Body) :
    runTest name [d1, d2] b = runTest name [d2, d1] b := by
  cases d1 <;> cases d2
  all_goals try exact absurd rfl hk
  all_goals try exact runTest_congr_pair name b _ _ rfl rfl rfl
  all_goals simp [composable] at h1 h2

/-- Witness for C1: partial_credit stacked with timeout, in both orders, on
a body that reports a score and then outruns the deadline. -/
theorem C1_decorator_pairs_commute_witness :
    composable (.partial_credit 1) = true ∧ composable (.timeout 1 none) = true ∧
      kindTag (.partial_credit 1) ≠ kindTag (.timeout 1 none) ∧
      runTest "t" [.partial_credit 1, .timeout 1 none]
          ⟨[.set_score (1/2), .sleep 2], .ret⟩ =
        runTest "t" [.timeout 1 none, .partial_credit 1]
          ⟨[.set_score (1/2), .sleep 2], .ret⟩ :=
  ⟨rfl, rfl, by decide,
   C1_decorator_pairs_commute (.partial_credit 1) (.timeout 1 none) rfl rfl
     (by decide) "t" ⟨[.set_score (1/2), .sleep 2], .ret⟩⟩

/-- C8: `custom_output` fails with a validation error at decoration time iff
its format is outside the enumerated formats or its mode is outside the
enumerated modes; the `set_custom_output` setter is injected into the test
body's kwargs exactly when the mode is replace or append, never for
error_only. -/
theorem C8_custom_output_validation_and_injection :
    (∀ format mode : String,
        (custom_output_init format mode).isOk = false ↔
          (format ∉ FORMATS ∨ mode ∉ MODES)) ∧
      (∀ format mode : String,
        (provsOf (decorate [.custom_output format mode]).layers).custom =
          (mode = "replace" || mode = "append")) ∧
      (∀ format : String,
        (provsOf (decorate [.custom_output format "error_only"]).layers).custom = false) := by
  refine ⟨?_, ?_, ?_⟩
  · intro format mode
    by_cases hf : format ∈ FORMATS
    · by_cases hm : mode ∈ MODES
      · simp [custom_output_init, hf, hm, Except.isOk, Except.toBool]
      · simp [custom_output_init, hf, hm, Except.isOk, Except.toBool]
    · simp [custom_output_init, hf, Except.isOk, Except.toBool]
  · intro format mode
    simp [decorate, applyDecor, FuncObj.mapTop, FuncObj.pushLayer, FuncObj.topDict,
      provsOf, providesCustom]
  · intro format
    simp [decorate, applyDecor, FuncObj.mapTop, FuncObj.pushLayer, FuncObj.topDict,
      provsOf, providesCustom]

/-- Witness for C8 at concrete arguments: a bad format fails, a bad mode
fails, valid arguments pass, and the setter is injected for append but not
for error_only. -/
theorem C8_custom_output_validation_and_injection_witness :
    ((custom_output_init "bogus" "append").isOk = false ↔
        ("bogus" ∉ FORMATS ∨ "append" ∉ MODES)) ∧
      ((provsOf (decorate [.custom_output "html" "append"]).layers).custom =
        ("append" = "replace" || "append" = "append")) ∧
      ((provsOf (decorate [.custom_output "html" "error_only"]).layers).custom = false) :=
  ⟨C8_custom_output_validation_and_injection.1 "bogus" "append",
   C8_custom_output_validation_and_injection.2.1 "html" "append",
   C8_custom_output_validation_and_injection.2.2 "html"⟩

/-- C9 counterexample: the claim says a visibility value outside the
enumerated set fails validation, but `visibility.__init__` performs no
validation: "bogus" is outside the set yet is accepted. -/
theorem C9_visibility_counterexample :
    "bogus" ∉ VISIBILITIES ∧ visibility_init "bogus" = .ok (.visibility "bogus") :=
  ⟨by decide, rfl⟩

/-- C9 as amended: the visibility annotation accepts any string — inside or
outside the enumerated set — without decoration-time validation, attaches it
as the test's visibility attribute, and does not alter the test's behaviour
(the result record is unchanged except for its visibility field). -/
theorem C9_visibility_amended (v : String) (name : String) (b : Body) :
    visibility_init v = .ok (.visibility v) ∧
      runTest name [.visibility v] b = { runTest name [] b with visibility := v } := by
  refine ⟨rfl, ?_⟩
  unfold runTest
  have e1 : decorate [.visibility v] =
      ⟨{ Dict.empty with visibility := some v }, []⟩ := rfl
  have e2 : decorate [] = ⟨Dict.empty, []⟩ := rfl
  rw [e1, e2, callFunc_no_layers, callFunc_no_layers]
  rfl

/-- Witness for C9's amended claim at a concrete value and body. -/
theorem C9_visibility_amended_witness :
    visibility_init "hidden" = .ok (.visibility "hidden") ∧
      runTest "t" [.visibility "hidden"] ⟨[], .ret⟩ =
        { runTest "t" [] ⟨[], .ret⟩ with visibility := "hidden" } :=
  C9_visibility_amended "hidden" "t" ⟨[], .ret⟩

/-- C2: for every executed test, max_score equals the weight attribute
(default 1.0); the score equals max_score when the status is passed and no
run-scoped score attribute was set, equals the run-scoped reported score
when partial credit reported one, and equals 0 otherwise (failed or errored
with no reported score). -/
theorem C2_score_and_max_score_rules (name : String) (decs : List Decor) (b : Body) :
    (runTest name decs b).max_score =
        ((callFunc (decorate decs) b).dict.weight.getD 1) ∧
      ((runTest name decs b).status = "passed" ∧
          (callFunc (decorate decs) b).dict.score = none →
        (runTest name decs b).score = (runTest name decs b).max_score) ∧
      (∀ v, (callFunc (decorate decs) b).dict.score = some v →
        (runTest name decs b).score = v) ∧
      ((runTest name decs b).status ≠ "passed" ∧
          (callFunc (decorate decs) b).dict.score = none →
        (runTest name decs b).score = 0) := by
  refine ⟨mkResultRecord_max_score name _ _, ?_, ?_, ?_⟩
  · intro h
    have h1 := h.1
    simp only [runTest, mkResultRecord, h.2] at h1
    show (mkResultRecord name _ _).score = (mkResultRecord name _ _).max_score
    simp only [mkResultRecord, h.2]
    rw [if_pos h1]
  · intro v hv
    exact mkResultRecord_score_some name _ _ v hv
  · intro h
    have h1 := h.1
    simp only [runTest, mkResultRecord, h.2] at h1
    show (mkResultRecord name _ _).score = 0
    simp only [mkResultRecord, h.2]
    rw [if_neg h1]

/-- Witness for C2: a weight-2 test whose body passes. -/
theorem C2_score_and_max_score_rules_witness :
    (runTest "t" [.weight 2] ⟨[], .ret⟩).max_score =
        ((callFunc (decorate [.weight 2]) ⟨[], .ret⟩).dict.weight.getD 1) ∧
      ((runTest "t" [.weight 2] ⟨[], .ret⟩).status = "passed" ∧
          (callFunc (decorate [.weight 2]) ⟨[], .ret⟩).dict.score = none →
        (runTest "t" [.weight 2] ⟨[], .ret⟩).score =
          (runTest "t" [.weight 2] ⟨[], .ret⟩).max_score) ∧
      (∀ v, (callFunc (decorate [.weight 2]) ⟨[], .ret⟩).dict.score = some v →
        (runTest "t" [.weight 2] ⟨[], .ret⟩).score = v) ∧
      ((runTest "t" [.weight 2] ⟨[], .ret⟩).status ≠ "passed" ∧
          (callFunc (decorate [.weight 2]) ⟨[], .ret⟩).dict.score = none →
        (runTest "t" [.weight 2] ⟨[], .ret⟩).score = 0) :=
  C2_score_and_max_score_rules "t" [.weight 2] ⟨[], .ret⟩

/-- C3: a test decorated with partial_credit(W) whose body reports score V
through the injected set_score callback (its last call) and raises no
exception yields score=V, max_score=W, and status failed exactly when V<W:
the status is determined purely by comparing the reported score to the
weight. -/
theorem C3_partial_credit_scoring (w v : ℚ) (name : String) (as : List Action)
    (hpre : ∀ a ∈ as, (∃ x, a = Action.set_score x) ∨ (∃ k, a = Action.sleep k)) :
    (runTest name [.partial_credit w] ⟨as ++ [.set_score v], .ret⟩).score = v ∧
      (runTest name [.partial_credit w] ⟨as ++ [.set_score v], .ret⟩).max_score = w ∧
      (runTest name [.partial_credit w] ⟨as ++ [.set_score v], .ret⟩).status =
        (if v < w then "failed" else "passed") := by
  unfold runTest
  have hD : decorate [Decor.partial_credit w] =
      ⟨⟨some w, none, none, none, none, none, none, none, none, none, none, none⟩,
       [⟨LayerKind.partial_credit,
         ⟨some w, none, none, none, none, none, none, none, none, none, none, none⟩⟩]⟩ := rfl
  rw [hD, callFunc_factors _ ⟨rfl, rfl, rfl⟩
    (by intro l hl; simp at hl; rw [hl]; exact ⟨rfl, rfl, rfl⟩)]
  dsimp only
  have harm : armAlarms [⟨LayerKind.partial_credit,
      ⟨some w, none, none, none, none, none, none, none, none, none, none, none⟩⟩] =
      (none : Option (ℕ × String)) := rfl
  rw [harm]
  have habs := absExec_score_tail (provsOf [⟨LayerKind.partial_credit,
      ⟨some w, none, none, none, none, none, none, none, none, none, none, none⟩⟩])
    rfl v as Writes.empty hpre
  rw [habs]
  refine ⟨?_, ?_, ?_⟩ <;>
    simp [mkResultRecord, Dict.update, writesDict, unwindFrom, ov, endingOutcome]

/-- Witness for C3: partial_credit(2) with a body reporting 1 then 1/2. -/
theorem C3_partial_credit_scoring_witness :
    (runTest "t" [.partial_credit 2] ⟨[.set_score 1] ++ [.set_score (1/2)], .ret⟩).score =
        1/2 ∧
      (runTest "t" [.partial_credit 2]
          ⟨[.set_score 1] ++ [.set_score (1/2)], .ret⟩).max_score = 2 ∧
      (runTest "t" [.partial_credit 2]
          ⟨[.set_score 1] ++ [.set_score (1/2)], .ret⟩).status =
        (if (1 : ℚ)/2 < 2 then "failed" else "passed") :=
  C3_partial_credit_scoring 2 (1/2) "t" [.set_score 1]
    (fun a ha => by simp at ha; exact Or.inl ⟨1, ha⟩)

/-- C5: when a timeout guard is stacked with a stateful decorator wrapper
(partial_credit or leaderboard), in either order, a value the body reports
through the setter before the timeout fires is still present on the result
record after the timeout aborts the body (a reporting call placed after the
deadline never runs and cannot overwrite it). -/
theorem C5_timeout_preserves_reported_values :
    (∀ (w v v2 : ℚ) (n m : ℕ) (msg : Option String) (name : String) (decs : List Decor),
        (decs = [.partial_credit w, .timeout n msg] ∨
          decs = [.timeout n msg, .partial_credit w]) →
        1 ≤ n → n ≤ m →
        (runTest name decs ⟨[.set_score v, .sleep m, .set_score v2], .ret⟩).score = v ∧
          (runTest name decs
            ⟨[.set_score v, .sleep m, .set_score v2], .ret⟩).status = "failed") ∧
      (∀ (c s : String) (v : ℚ) (n m : ℕ) (msg : Option String) (name : String)
          (decs : List Decor),
        (decs = [.leaderboard c s, .timeout n msg] ∨
          decs = [.timeout n msg, .leaderboard c s]) →
        1 ≤ n → n ≤ m →
        (runTest name decs
            ⟨[.set_leaderboard_value v, .sleep m], .ret⟩).leaderboard_value = some v) := by
  have hn0 : ∀ n : ℕ, 1 ≤ n → ¬(n = 0) := by intro n hn; omega
  constructor
  · intro w v v2 n m msg name decs horder hn hm
    rcases horder with rfl | rfl <;>
      constructor <;>
        simp [runTest, callFunc, decorate, applyDecor, FuncObj.mapTop, FuncObj.pushLayer,
          FuncObj.topDict, armAlarms, execActions, execStep, modFirst, providesScore,
          unwindFrom, Dict.update, Dict.empty, ov, clearAlarms, mkResultRecord, hn0 n hn, hm]
  · intro c s v n m msg name decs horder hn hm
    rcases horder with rfl | rfl <;>
      simp [runTest, callFunc, decorate, applyDecor, FuncObj.mapTop, FuncObj.pushLayer,
        FuncObj.topDict, armAlarms, execActions, execStep, modFirst, providesLeaderboard,
        providesScore, unwindFrom, Dict.update, Dict.empty, ov, clearAlarms, mkResultRecord,
        hn0 n hn, hm]

/-- Witness for C5: partial_credit(1) under timeout(1) and leaderboard under
timeout(1), a 2-second body. -/
theorem C5_timeout_preserves_reported_values_witness :
    ((runTest "t" [.partial_credit 1, .timeout 1 none]
          ⟨[.set_score (1/2), .sleep 2, .set_score 1], .ret⟩).score = 1/2 ∧
        (runTest "t" [.partial_credit 1, .timeout 1 none]
          ⟨[.set_score (1/2), .sleep 2, .set_score 1], .ret⟩).status = "failed") ∧
      (runTest "t" [.timeout 1 none, .leaderboard "hs" "desc"]
          ⟨[.set_leaderboard_value 42, .sleep 2], .ret⟩).leaderboard_value = some 42 :=
  ⟨C5_timeout_preserves_reported_values.1 1 (1/2) 1 1 2 none "t" _ (Or.inl rfl)
      (by decide) (by decide),
   C5_timeout_preserves_reported_values.2 "hs" "desc" 42 1 2 none "t" _ (Or.inr rfl)
      (by decide) (by decide)⟩

/-- C6: a test wrapped by timeout(N) whose body has not returned when the
N-second deadline elapses raises the distinguished TestTimeout failure
carrying the configured message, or the default "test timed out after
{N}s." when none was configured; and on every exit path of every decorated
call the pending alarm is cleared, so no residual alarm can fire against a
later test. -/
theorem C6_timeout_message_and_alarm_clearing :
    (∀ (n m : ℕ) (msg : Option String),
        1 ≤ n → n ≤ m →
        (callFunc (decorate [.timeout n msg]) ⟨[.sleep m], .ret⟩).outcome =
          .timed_out (match msg with
            | some s => s
            | none => timeoutDefaultMessage n)) ∧
      (∀ (decs : List Decor) (b : Body),
        (callFunc (decorate decs) b).alarm = none) := by
  have hn0 : ∀ n : ℕ, 1 ≤ n → ¬(n = 0) := by intro n hn; omega
  constructor
  · intro n m msg hn hm
    simp [callFunc, decorate, applyDecor, FuncObj.pushLayer, FuncObj.topDict,
      armAlarms, execActions, execStep, hn0 n hn, hm]
  · intro decs b
    show (callFunc (decorate decs) b).alarm = none
    simp only [callFunc]
    by_cases hT : (decorate decs).layers.any (fun l => isTimeout l.kind) = true
    · apply clearAlarms_any_timeout
      rw [any_kind_congr (execActions_kinds b.actions
        ⟨(decorate decs).layers, armAlarms (decorate decs).layers⟩)]
      exact hT
    · have hT' : (decorate decs).layers.any (fun l => isTimeout l.kind) = false := by
        revert hT; cases (decorate decs).layers.any (fun l => isTimeout l.kind) <;> simp
      have harm := armAlarms_none_of_no_timeout hT'
      have hal : (execActions ⟨(decorate decs).layers,
          armAlarms (decorate decs).layers⟩ b.actions).1.alarm = none :=
        execActions_alarm_none b.actions _ harm
      rw [hal]
      exact clearAlarms_none _

/-- Witness for C6: timeout(1) with the default message on a 2-second body,
and the alarm cleared after a timeout-guarded partial-credit run. -/
theorem C6_timeout_message_and_alarm_clearing_witness :
    (callFunc (decorate [.timeout 1 none]) ⟨[.sleep 2], .ret⟩).outcome =
        .timed_out (match (none : Option String) with
          | some s => s
          | none => timeoutDefaultMessage 1) ∧
      (callFunc (decorate [.timeout 1 none, .partial_credit 1])
        ⟨[.set_score 1, .sleep 2], .ret⟩).alarm = none :=
  ⟨C6_timeout_message_and_alarm_clearing.1 1 2 none (by decide) (by decide),
   C6_timeout_message_and_alarm_clearing.2 [.timeout 1 none, .partial_credit 1]
     ⟨[.set_score 1, .sleep 2], .ret⟩⟩

theorem partition_foldl (now : ℤ) :
    ∀ (units : List LUnit) (acc1 : List (LUnit × ℤ)) (acc2 : List LUnit),
      units.foldl
        (fun (acc : List (LUnit × ℤ) × List LUnit) t =>
          match _is_locked now t with
          | (true, some unlock_dt) => (acc.1 ++ [(t, unlock_dt)], acc.2)
          | _ => (acc.1, acc.2 ++ [t]))
        (acc1, acc2) =
      (acc1 ++ lockedOf now units, acc2 ++ runnableOf now units) := by
  intro units
  induction units with
  | nil => intro acc1 acc2; simp [lockedOf, runnableOf]
  | cons u us ih =>
      intro acc1 acc2
      cases hav : u.method.gs_available_from with
      | none =>
          have hstep : _is_locked now u = (false, none) := by simp [_is_locked, hav]
          simp only [List.foldl, hstep]
          rw [ih]
          simp [lockedOf, runnableOf, List.filter, _is_locked, hav]
      | some dt =>
          by_cases hlt : now < dt
          · have hstep : _is_locked now u = (true, some dt) := by
              simp [_is_locked, hav, hlt]
            simp only [List.foldl, hstep]
            rw [ih]
            simp [lockedOf, runnableOf, List.filter, _is_locked, hav, hlt]
          · have hstep : _is_locked now u = (false, some dt) := by
              simp [_is_locked, hav, hlt]
            simp only [List.foldl, hstep]
            rw [ih]
            simp [lockedOf, runnableOf, List.filter, _is_locked, hav, hlt]

theorem recordOf_dict_outcome (u : LUnit) :
    recordOf u = mkResultRecord u.name u.method
      (callFunc ⟨Dict.empty, []⟩ u.body).outcome := by
  unfold recordOf
  rw [callFunc_no_layers]

set_option maxHeartbeats 1000000 in
/-- C4: a unit whose available_from is strictly later than the runner's
"now" reference is never invoked by the locking runner (the report's test
entries come only from the runnable units) and its weight is excluded from
the aggregate max_score; with placeholder output enabled exactly one
placeholder with score 0 and max_score 0 describing the unlock time is
appended per locked unit, and appending placeholders changes neither
aggregate score nor aggregate max_score. -/
theorem C4_locked_units_excluded (now : ℤ) (include_locked_in_output : Bool)
    (units : List LUnit) :
    (runWithLocks now include_locked_in_output units).tests =
        (runnableOf now units).map (fun u => entryOf (recordOf u)) ++
          (if include_locked_in_output then
            (lockedOf now units).map (fun q => placeholderOf q.1 q.2)
          else []) ∧
      (runWithLocks now include_locked_in_output units).max_score =
        ((runnableOf now units).map (fun u => u.method.weight.getD 1)).sum ∧
      (runWithLocks now include_locked_in_output units).score =
        ((runnableOf now units).map (fun u => (recordOf u).score)).sum ∧
      (∀ e ∈ (lockedOf now units).map (fun q => placeholderOf q.1 q.2),
        e.score = 0 ∧ e.max_score = 0) ∧
      (runWithLocks now true units).score = (runWithLocks now false units).score ∧
      (runWithLocks now true units).max_score =
        (runWithLocks now false units).max_score := by
  have hpart := partition_foldl now units [] []
  simp only [List.nil_append] at hpart
  have hmax : ∀ u : LUnit, (entryOf (recordOf u)).max_score = u.method.weight.getD 1 := by
    intro u
    show (recordOf u).max_score = u.method.weight.getD 1
    rw [recordOf_dict_outcome]
    exact mkResultRecord_max_score _ _ _
  have hmaps : ((runnableOf now units).map (fun u => entryOf (recordOf u))).map
      (fun t => t.max_score) = (runnableOf now units).map (fun u => u.method.weight.getD 1) := by
    rw [List.map_map]
    exact List.map_congr_left (fun u _ => hmax u)
  have hscores : ((runnableOf now units).map (fun u => entryOf (recordOf u))).map
      (fun t => t.score) = (runnableOf now units).map (fun u => (recordOf u).score) := by
    rw [List.map_map]
    exact List.map_congr_left (fun u _ => rfl)
  refine ⟨?_, ?_, ?_, ?_, ?_, ?_⟩
  · simp only [runWithLocks, hpart, baseRunPayload]
    cases include_locked_in_output <;> simp
  · simp only [runWithLocks, hpart, baseRunPayload, hmaps]
    cases include_locked_in_output <;> simp
  · simp only [runWithLocks, hpart, baseRunPayload, hscores]
    cases include_locked_in_output <;> simp
  · intro e he
    obtain ⟨q, hq, rfl⟩ := List.mem_map.mp he
    exact ⟨rfl, rfl⟩
  · simp only [runWithLocks, hpart, baseRunPayload]
    simp
  · simp only [runWithLocks, hpart, baseRunPayload]
    simp

/-- Witness for C4: one runnable unit and one locked unit, placeholders on. -/
theorem C4_locked_units_excluded_witness :
    (runWithLocks 50 true
      [⟨"a", ⟨some 3, none, none, none, none, none, none, none, none, none, none, none⟩, ⟨[], .ret⟩⟩,
       ⟨"b", ⟨some 2, none, none, none, none, none, none, none, none, none, some 100, none⟩, ⟨[], .ret⟩⟩]).tests =
        (runnableOf 50
      [⟨"a", ⟨some 3, none, none, none, none, none, none, none, none, none, none, none⟩, ⟨[], .ret⟩⟩,
       ⟨"b", ⟨some 2, none, none, none, none, none, none, none, none, none, some 100, none⟩, ⟨[], .ret⟩⟩]).map (fun u => entryOf (recordOf u)) ++
          (if true then
            (lockedOf 50
      [⟨"a", ⟨some 3, none, none, none, none, none, none, none, none, none, none, none⟩, ⟨[], .ret⟩⟩,
       ⟨"b", ⟨some 2, none, none, none, none, none, none, none, none, none, some 100, none⟩, ⟨[], .ret⟩⟩]).map (fun q => placeholderOf q.1 q.2)
          else []) ∧
      (runWithLocks 50 true
      [⟨"a", ⟨some 3, none, none, none, none, none, none, none, none, none, none, none⟩, ⟨[], .ret⟩⟩,
       ⟨"b", ⟨some 2, none, none, none, none, none, none, none, none, none, some 100, none⟩, ⟨[], .ret⟩⟩]).max_score =
        ((runnableOf 50
      [⟨"a", ⟨some 3, none, none, none, none, none, none, none, none, none, none, none⟩, ⟨[], .ret⟩⟩,
       ⟨"b", ⟨some 2, none, none, none, none, none, none, none, none, none, some 100, none⟩, ⟨[], .ret⟩⟩]).map (fun u => u.method.weight.getD 1)).sum ∧
      (runWithLocks 50 true
      [⟨"a", ⟨some 3, none, none, none, none, none, none, none, none, none, none, none⟩, ⟨[], .ret⟩⟩,
       ⟨"b", ⟨some 2, none, none, none, none, none, none, none, none, none, some 100, none⟩, ⟨[], .ret⟩⟩]).score =
        ((runnableOf 50
      [⟨"a", ⟨some 3, none, none, none, none, none, none, none, none, none, none, none⟩, ⟨[], .ret⟩⟩,
       ⟨"b", ⟨some 2, none, none, none, none, none, none, none, none, none, some 100, none⟩, ⟨[], .ret⟩⟩]).map (fun u => (recordOf u).score)).sum ∧
      (∀ e ∈ (lockedOf 50
      [⟨"a", ⟨some 3, none, none, none, none, none, none, none, none, none, none, none⟩, ⟨[], .ret⟩⟩,
       ⟨"b", ⟨some 2, none, none, none, none, none, none, none, none, none, some 100, none⟩, ⟨[], .ret⟩⟩]).map (fun q => placeholderOf q.1 q.2),
        e.score = 0 ∧ e.max_score = 0) ∧
      (runWithLocks 50 true
      [⟨"a", ⟨some 3, none, none, none, none, none, none, none, none, none, none, none⟩, ⟨[], .ret⟩⟩,
       ⟨"b", ⟨some 2, none, none, none, none, none, none, none, none, none, some 100, none⟩, ⟨[], .ret⟩⟩]).score =
        (runWithLocks 50 false
      [⟨"a", ⟨some 3, none, none, none, none, none, none, none, none, none, none, none⟩, ⟨[], .ret⟩⟩,
       ⟨"b", ⟨some 2, none, none, none, none, none, none, none, none, none, some 100, none⟩, ⟨[], .ret⟩⟩]).score ∧
      (runWithLocks 50 true
      [⟨"a", ⟨some 3, none, none, none, none, none, none, none, none, none, none, none⟩, ⟨[], .ret⟩⟩,
       ⟨"b", ⟨some 2, none, none, none, none, none, none, none, none, none, some 100, none⟩, ⟨[], .ret⟩⟩]).max_score =
        (runWithLocks 50 false
      [⟨"a", ⟨some 3, none, none, none, none, none, none, none, none, none, none, none⟩, ⟨[], .ret⟩⟩,
       ⟨"b", ⟨some 2, none, none, none, none, none, none, none, none, none, some 100, none⟩, ⟨[], .ret⟩⟩]).max_score :=
  C4_locked_units_excluded 50 true
      [⟨"a", ⟨some 3, none, none, none, none, none, none, none, none, none, none, none⟩, ⟨[], .ret⟩⟩,
       ⟨"b", ⟨some 2, none, none, none, none, none, none, none, none, none, some 100, none⟩, ⟨[], .ret⟩⟩]

theorem insertByTime_length (s : Submission) :
    ∀ (l : List Submission), (insertByTime s l).length = l.length + 1 := by
  intro l
  induction l with
  | nil => rfl
  | cons t ts ih =>
      by_cases h : t.submission_time ≤ s.submission_time
      · simp [insertByTime, h, ih]
      · simp [insertByTime, h]

theorem sortByTime_length : ∀ (l : List Submission), (sortByTime l).length = l.length := by
  intro l
  induction l with
  | nil => rfl
  | cons s ss ih => simp [sortByTime, insertByTime_length, ih]

theorem pyGetAt_pos {α : Type} (l : List α) (c : ℕ) (h1 : 1 ≤ c) (hle : c ≤ l.length) :
    ∃ s, l.get? (c - 1) = some s ∧ pyGetAt l ((c : ℤ) - 1) = .ok s := by
  have hlt : c - 1 < l.length := by omega
  cases hg : l.get? (c - 1) with
  | none =>
      rw [List.get?_eq_none] at hg
      omega
  | some s =>
      refine ⟨s, rfl, ?_⟩
      have hnneg : ¬((c : ℤ) - 1 < 0) := by omega
      have hx : ¬((if (c : ℤ) - 1 < 0 then (c : ℤ) - 1 + l.length else (c : ℤ) - 1) < 0) := by
        rw [if_neg hnneg]
        omega
      have htn : ((if (c : ℤ) - 1 < 0 then (c : ℤ) - 1 + l.length else (c : ℤ) - 1)).toNat =
          c - 1 := by
        rw [if_neg hnneg]
        omega
      simp only [pyGetAt, hx, if_false, htn, hg]

theorem rate_limit_window_step_none {cap : Option ℕ} (window : List Submission)
    (reasonOf : ℕ → ℕ → String)
    (h : ∀ c, cap = some c → window.length < c) :
    rate_limit_window_step cap window reasonOf = .ok none := by
  cases cap with
  | none => rfl
  | some c =>
      have := h c rfl
      have hnot : ¬(c ≤ window.length) := by omega
      simp [rate_limit_window_step, hnot]

theorem rate_limit_window_step_hit {cap : Option ℕ} {c : ℕ} (window : List Submission)
    (reasonOf : ℕ → ℕ → String) (hcap : cap = some c) (h1 : 1 ≤ c)
    (hle : c ≤ window.length) :
    ∃ s, (sortByTime window).get? (c - 1) = some s ∧
      rate_limit_window_step cap window reasonOf =
        .ok (some (prepend_rate_limit_warning s (reasonOf c (sortByTime window).length))) := by
  subst hcap
  have hle2 : c ≤ (sortByTime window).length := by rw [sortByTime_length]; exact hle
  obtain ⟨s, hg, hpy⟩ := pyGetAt_pos (sortByTime window) c h1 hle2
  refine ⟨s, hg, ?_⟩
  simp [rate_limit_window_step, hle, hpy]

theorem rate_limit_window_step_some {cap : Option ℕ} {window : List Submission}
    {reasonOf : ℕ → ℕ → String} {r : Results}
    (h : rate_limit_window_step cap window reasonOf = .ok (some r)) :
    ∃ s reason, r = prepend_rate_limit_warning s reason := by
  cases cap with
  | none => simp [rate_limit_window_step] at h
  | some c =>
      by_cases hle : c ≤ window.length
      · simp only [rate_limit_window_step, hle, if_true] at h
        cases hpy : pyGetAt (sortByTime window) ((c : ℤ) - 1) with
        | error e => rw [hpy] at h; simp at h
        | ok s =>
            rw [hpy] at h
            simp only [Except.ok.injEq, Option.some.injEq] at h
            exact ⟨s, _, h.symm⟩
      · simp [rate_limit_window_step, hle] at h

/-- C7: over the already-filtered submission history, the query returns
nothing whenever the count of remaining prior submissions is below every
configured cap (total, per-24h, per-hour, each counted over its window);
and when an applicable cap N (at least 1) is reached or exceeded it returns
the Nth-from-oldest prior report of the applicable window — index N-1 of
the ascending sort by submission timestamp — with the warning record
prepended at index 0 of its tests list. -/
theorem C7_rate_limiter_caps (max_total max_per_day max_per_hour : Option ℕ)
    (now : ℤ) (subs : List Submission) :
    ((∀ c, max_total = some c →
        (load_previous_submissions subs).length < c) →
     (∀ c, max_per_day = some c →
        ((load_previous_submissions subs).filter
          (fun s => now - 86400 < s.submission_time)).length < c) →
     (∀ c, max_per_hour = some c →
        ((load_previous_submissions subs).filter
          (fun s => now - 3600 < s.submission_time)).length < c) →
      get_earlier_results_if_rate_limited max_total max_per_day max_per_hour now subs =
        .ok none) ∧
    (∀ c, max_total = some c → 1 ≤ c → c ≤ (load_previous_submissions subs).length →
      ∃ s, (sortByTime (load_previous_submissions subs)).get? (c - 1) = some s ∧
        get_earlier_results_if_rate_limited max_total max_per_day max_per_hour now subs =
          .ok (some (prepend_rate_limit_warning s
            (total_reason c (sortByTime (load_previous_submissions subs)).length)))) ∧
    (∀ c, (∀ c2, max_total = some c2 → (load_previous_submissions subs).length < c2) →
      max_per_day = some c → 1 ≤ c →
      c ≤ ((load_previous_submissions subs).filter
        (fun s => now - 86400 < s.submission_time)).length →
      ∃ s, (sortByTime ((load_previous_submissions subs).filter
          (fun s => now - 86400 < s.submission_time))).get? (c - 1) = some s ∧
        get_earlier_results_if_rate_limited max_total max_per_day max_per_hour now subs =
          .ok (some (prepend_rate_limit_warning s
            (per_day_reason c (sortByTime ((load_previous_submissions subs).filter
              (fun s => now - 86400 < s.submission_time))).length)))) ∧
    (∀ c, (∀ c2, max_total = some c2 → (load_previous_submissions subs).length < c2) →
      (∀ c2, max_per_day = some c2 →
        ((load_previous_submissions subs).filter
          (fun s => now - 86400 < s.submission_time)).length < c2) →
      max_per_hour = some c → 1 ≤ c →
      c ≤ ((load_previous_submissions subs).filter
        (fun s => now - 3600 < s.submission_time)).length →
      ∃ s, (sortByTime ((load_previous_submissions subs).filter
          (fun s => now - 3600 < s.submission_time))).get? (c - 1) = some s ∧
        get_earlier_results_if_rate_limited max_total max_per_day max_per_hour now subs =
          .ok (some (prepend_rate_limit_warning s
            (per_hour_reason c (sortByTime ((load_previous_submissions subs).filter
              (fun s => now - 3600 < s.submission_time))).length)))) := by
  refine ⟨?_, ?_, ?_, ?_⟩
  · intro ht hd hh
    by_cases hall : max_total = none ∧ max_per_day = none ∧ max_per_hour = none
    · simp [get_earlier_results_if_rate_limited, hall]
    · simp only [get_earlier_results_if_rate_limited, hall, if_false]
      rw [rate_limit_window_step_none _ _ ht, rate_limit_window_step_none _ _ hd,
        rate_limit_window_step_none _ _ hh]
  · intro c hcap h1 hle
    obtain ⟨s, hg, hstep⟩ :=
      rate_limit_window_step_hit (load_previous_submissions subs) total_reason hcap h1 hle
    refine ⟨s, hg, ?_⟩
    have hall : ¬(max_total = none ∧ max_per_day = none ∧ max_per_hour = none) := by
      rw [hcap]
      simp
    simp only [get_earlier_results_if_rate_limited, hall, if_false]
    rw [hstep]
  · intro c ht hcap h1 hle
    obtain ⟨s, hg, hstep⟩ := rate_limit_window_step_hit
      ((load_previous_submissions subs).filter (fun s => now - 86400 < s.submission_time))
      per_day_reason hcap h1 hle
    refine ⟨s, hg, ?_⟩
    have hall : ¬(max_total = none ∧ max_per_day = none ∧ max_per_hour = none) := by
      rw [hcap]
      simp
    simp only [get_earlier_results_if_rate_limited, hall, if_false]
    rw [rate_limit_window_step_none _ _ ht, hstep]
  · intro c ht hd hcap h1 hle
    obtain ⟨s, hg, hstep⟩ := rate_limit_window_step_hit
      ((load_previous_submissions subs).filter (fun s => now - 3600 < s.submission_time))
      per_hour_reason hcap h1 hle
    refine ⟨s, hg, ?_⟩
    have hall : ¬(max_total = none ∧ max_per_day = none ∧ max_per_hour = none) := by
      rw [hcap]
      simp
    simp only [get_earlier_results_if_rate_limited, hall, if_false]
    rw [rate_limit_window_step_none _ _ ht, rate_limit_window_step_none _ _ hd, hstep]

/-- Witness for C7: a single prior submission and a total cap of 1. -/
theorem C7_rate_limiter_caps_witness :
    ∃ s, (sortByTime (load_previous_submissions
        [⟨100, some ⟨[], 0, 0, none⟩⟩])).get? (1 - 1) = some s ∧
      get_earlier_results_if_rate_limited (some 1) none none 400
          [⟨100, some ⟨[], 0, 0, none⟩⟩] =
        .ok (some (prepend_rate_limit_warning s
          (total_reason 1 (sortByTime (load_previous_submissions
            [⟨100, some ⟨[], 0, 0, none⟩⟩])).length))) :=
  (C7_rate_limiter_caps (some 1) none none 400
      [⟨100, some ⟨[], 0, 0, none⟩⟩]).2.1 1 rfl (by decide) (by decide)

theorem get_earlier_some_is_prepend {max_total max_per_day max_per_hour : Option ℕ}
    {now : ℤ} {subs : List Submission} {r : Results}
    (h : get_earlier_results_if_rate_limited max_total max_per_day max_per_hour now subs =
      .ok (some r)) :
    ∃ s reason, r = prepend_rate_limit_warning s reason := by
  by_cases hall : max_total = none ∧ max_per_day = none ∧ max_per_hour = none
  · simp [get_earlier_results_if_rate_limited, hall] at h
  · simp only [get_earlier_results_if_rate_limited, hall, if_false] at h
    cases h1 : rate_limit_window_step max_total (load_previous_submissions subs)
        total_reason with
    | error e => rw [h1] at h; simp at h
    | ok o1 =>
        cases o1 with
        | some r1 =>
            rw [h1] at h
            simp only [Except.ok.injEq, Option.some.injEq] at h
            exact h ▸ rate_limit_window_step_some h1
        | none =>
            rw [h1] at h
            simp only at h
            cases h2 : rate_limit_window_step max_per_day
                ((load_previous_submissions subs).filter
                  (fun s => now - 86400 < s.submission_time)) per_day_reason with
            | error e => rw [h2] at h; simp at h
            | ok o2 =>
                cases o2 with
                | some r2 =>
                    rw [h2] at h
                    simp only [Except.ok.injEq, Option.some.injEq] at h
                    exact h ▸ rate_limit_window_step_some h2
                | none =>
                    rw [h2] at h
                    simp only at h
                    exact rate_limit_window_step_some h

/-- C10: every non-null payload the rate limiter returns carries extra_data
with rate_limited set to true (any pre-existing extra_data of the reused
prior report is overwritten by exactly that flag), so a future run's
`load_previous_submissions` filters out any prior submission storing that
payload and it never counts toward a cap again. -/
theorem C10_rate_limited_flag_round_trip (max_total max_per_day max_per_hour : Option ℕ)
    (now : ℤ) (subs : List Submission) (r : Results)
    (h : get_earlier_results_if_rate_limited max_total max_per_day max_per_hour now subs =
      .ok (some r)) :
    r.extra_data = some (some ⟨true, []⟩) ∧
      ∀ s : Submission, s.results = some r →
        ∀ subs2 : List Submission, s ∉ load_previous_submissions subs2 := by
  obtain ⟨s0, reason, hr⟩ := get_earlier_some_is_prepend h
  have hx : r.extra_data = some (some ⟨true, []⟩) := by rw [hr]; rfl
  refine ⟨hx, ?_⟩
  intro s hs subs2 hmem
  have hflag : _is_previous_submission_rate_limited s = true := by
    unfold _is_previous_submission_rate_limited
    rw [hs]
    simp [hx]
  unfold load_previous_submissions at hmem
  have := (List.mem_filter.mp hmem).2
  rw [hflag] at this
  simp at this

/-- Witness for C10: the payload returned under a total cap of 1 carries the
flag, and a submission storing it is filtered out. -/
theorem C10_rate_limited_flag_round_trip_witness :
    (prepend_rate_limit_warning ⟨100, some ⟨[], 0, 0, none⟩⟩
        (total_reason 1 1)).extra_data = some (some ⟨true, []⟩) ∧
      ∀ s : Submission,
        s.results = some (prepend_rate_limit_warning ⟨100, some ⟨[], 0, 0, none⟩⟩
          (total_reason 1 1)) →
        ∀ subs2 : List Submission, s ∉ load_previous_submissions subs2 :=
  C10_rate_limited_flag_round_trip (some 1) none none 400
    [⟨100, some ⟨[], 0, 0, none⟩⟩] _ rfl

end GradescopeUtils
